import Mathlib

/-!
Shallow embedding of the WhatsOrder conversational core:
`src/utils/messageParser.js` (MessageParser), `src/services/menuService.js`
(MenuService) and `src/services/customerService.js` (CustomerService).

Strings are modelled as `List Char`.  JavaScript regular-expression
semantics (leftmost match, greedy/lazy quantifiers with backtracking,
`\s`, `\w`, `.` excluding line terminators, `$` = end of input) are
reproduced by hand-written matchers for each concrete pattern of the
source.  JavaScript's `toLowerCase` is modelled by `Char.toLower`
(faithful on ASCII, which is all the grammars inspect), and `\s` by the
common whitespace characters listed in `jsWs`.

Fallible collaborators (the menu file and the customer store) are
modelled as `Except Unit` values inside `Env`: the services catch all
errors internally, which the embedding mirrors branch by branch.
`parseMessage` returns `Option Parsed`, `none` standing for the
JavaScript `null` that `parsePaymentCommand` could in principle return
through the early `return` in `parseMessage`.
-/

/-- JS `\s` (and `String.prototype.trim`) whitespace, restricted to the
characters that can actually occur in chat text. -/
def jsWs (c : Char) : Bool :=
  c.toNat = 32 || c.toNat = 9 || c.toNat = 10 || c.toNat = 13 ||
  c.toNat = 11 || c.toNat = 12 ||
  c.toNat = 160 || c.toNat = 65279 ||
  c.toNat = 8232 || c.toNat = 8233

/-- JS line terminators (given by code point): the characters `.` does
not match. -/
def isLineTerm (c : Char) : Bool :=
  c.toNat = 10 || c.toNat = 13 || c.toNat = 8232 || c.toNat = 8233

/-- Negation of `isLineTerm`, the character class of JS `.`. -/
def isDot (c : Char) : Bool := !isLineTerm c

/-- JS `\d`. -/
def isDig (c : Char) : Bool := '0' ≤ c && c ≤ '9'

/-- ASCII letter, the `a-zA-Z` class. -/
def isAlpha (c : Char) : Bool := ('a' ≤ c && c ≤ 'z') || ('A' ≤ c && c ≤ 'Z')

/-- JS `\w`: `[A-Za-z0-9_]`. -/
def isWord (c : Char) : Bool := isAlpha c || isDig c || c = '_'

/-- JS `String.prototype.trim`. -/
def jsTrim (l : List Char) : List Char :=
  ((l.dropWhile jsWs).reverse.dropWhile jsWs).reverse

/-- JS `String.prototype.toLowerCase` (ASCII-faithful). -/
def lowerL (l : List Char) : List Char := l.map Char.toLower

/-- Case-insensitive literal match at the start of `s` (a `/i` regex
literal).  `pat` is given pre-lowercased. -/
def ciStarts (pat s : List Char) : Bool := lowerL (s.take pat.length) = pat

/-- JS `String.prototype.includes`. -/
def containsSub (pat : List Char) : List Char → Bool
  | [] => pat.isEmpty
  | c :: rest => List.isPrefixOf pat (c :: rest) || containsSub pat rest

/-- Leftmost-match scan of an unanchored regex: try the position-local
matcher `f` at every suffix, leftmost first. -/
def scanO {α : Type} (f : List Char → Option α) : List Char → Option α
  | [] => f []
  | c :: rest =>
    match f (c :: rest) with
    | some r => some r
    | none => scanO f rest

/-- Digits to a number, as JS `parseInt` on a `\d+` capture. -/
def natOfDigits (l : List Char) : Nat :=
  l.foldl (fun acc c => acc * 10 + (c.toNat - '0'.toNat)) 0

/-- JS `parseFloat` on a `\d+(\.\d+)?` capture: integer digits plus an
optional fraction, as an exact rational. -/
def ratOfNum (d f : List Char) : Rat :=
  (natOfDigits d : Rat) + (natOfDigits f : Rat) / ((10 : Rat) ^ f.length)

/-- Match `\s+(.+)$` against the whole of `l` and return the capture:
greedy `\s+` with backtracking, `.` excluding line terminators, `$` the
end of input. -/
def wsDotPlusEnd (l : List Char) : Option (List Char) :=
  let w := l.takeWhile jsWs
  let r := l.dropWhile jsWs
  if w.isEmpty then none
  else if !r.isEmpty then
    if r.any isLineTerm then none else some r
  else
    match w.reverse with
    | c :: _ :: _ => if isLineTerm c then none else some [c]
    | _ => none

/-- Match `\s+(.+)` (no end anchor) after a keyword: the capture is the
maximal line-terminator-free run, as the greedy `.+` takes it. -/
def wsDotPlusFree (l : List Char) : Option (List Char) :=
  let w := l.takeWhile jsWs
  let r := l.dropWhile jsWs
  if w.isEmpty then none
  else if !r.isEmpty then some (r.takeWhile isDot)
  else
    match w.reverse with
    | c :: _ :: _ => if isLineTerm c then none else some [c]
    | _ => none

/-! ### Payment-command grammar (`messageParser.js` lines 650-723) -/

/-- `/^pay (cod|upi)$/`, returning the captured method. -/
def matchPayMethod (l : List Char) : Option (List Char) :=
  if l = "pay cod".toList then some "cod".toList
  else if l = "pay upi".toList then some "upi".toList
  else none

/-- `/^payment (options|status|help)$/` as a test. -/
def matchPaymentWord (l : List Char) : Bool :=
  l = "payment options".toList || l = "payment status".toList ||
  l = "payment help".toList

/-- `/^(?:paid|confirm payment)\s+(.+)$/`, returning the capture.  The
two alternative prefixes are mutually exclusive, so no alternation
backtracking arises. -/
def matchPaidCmd (l : List Char) : Option (List Char) :=
  if List.isPrefixOf "paid".toList l then wsDotPlusEnd (l.drop 4)
  else if List.isPrefixOf "confirm payment".toList l then wsDotPlusEnd (l.drop 15)
  else none

/-- `MessageParser.isPaymentCommand` (lines 650-659): some of the four
payment patterns tests true. -/
def isPaymentCommand (l : List Char) : Bool :=
  (matchPayMethod l).isSome || matchPaymentWord l ||
  (List.isPrefixOf "paid".toList l && (wsDotPlusEnd (l.drop 4)).isSome) ||
  (List.isPrefixOf "confirm payment".toList l && (wsDotPlusEnd (l.drop 15)).isSome)

/-! ### Data model -/

/-- A catalog entry of `menu.json`, as read by `MenuService`. -/
structure MenuItem where
  id : Nat
  name : List Char
  description : List Char
  price : Nat
  category : List Char
  available : Bool
  emoji : List Char
deriving DecidableEq

/-- A row of the `Customer` table, as `CustomerService` reads it.
`name`/`location`/`currentLocation` are nullable text columns (JS
falsiness of `null` and of the empty string is handled at use sites);
`lastLocationUpdate` is a nullable timestamp in milliseconds. -/
structure Customer where
  phone : String
  name : Option String
  location : Option String
  currentLocation : Option String
  lastLocationUpdate : Option Int
  sessionActive : Bool
deriving DecidableEq

/-- The collaborators and configuration a single resolution reads:
the menu file (`Except` = the load threw), the customer row for the
sender (`Except` = the store threw), `process.env.RESTAURANT_OWNER_PHONE`
(absent when unset) and the wall clock `Date.now()` in milliseconds. -/
structure Env where
  menuW : Except Unit (List MenuItem)
  customerW : Except Unit (Option Customer)
  ownerPhone : Option String
  now : Int

/-- One resolved order line (`{quantity, menuItem, total}`). -/
structure OrderLine where
  quantity : Nat
  menuItem : MenuItem
  total : Nat
deriving DecidableEq

/-- The two shapes `parseOrderMessage` can produce. -/
inductive OrderData where
  | multiple (items : List OrderLine) (totalAmount : Nat) (isMultipleItems : Bool)
  | single (quantity : Nat) (menuItem : MenuItem) (total : Nat)
deriving DecidableEq

/-- The `updates` object of `owner_edit_item`. -/
inductive Updates where
  | price (price : Rat)
  | rename (name : List Char)
deriving DecidableEq

/-- The intent-specific `data` payloads of `parseMessage`. -/
inductive Data where
  | emptyData
  | phoneData (customerPhone : String)
  | payMethod (method : List Char) (customerPhone : String)
      (methodMap : List (List Char × List Char))
  | txn (transactionId : List Char) (customerPhone : String)
  | nameData (name : List Char) (phone : String)
  | locationData (location : List Char) (phone : String)
  | currentLocationData (currentLocation : List Char) (phone : String)
  | orderData (od : OrderData)
  | filterData (filter : List Char)
  | orderIdData (orderId : List Char)
  | addItemData (name : List Char) (price : Rat) (description : List Char)
  | editItemData (identifier : List Char) (updates : Updates)
  | identifierData (identifier : List Char)
  | searchData (searchTerm : List Char)
  | unknownData (originalMessage : String)
deriving DecidableEq

/-- The resolver's output `{intent, data}`. -/
structure Parsed where
  intent : String
  data : Data
deriving DecidableEq

/-! ### MenuService (`menuService.js`) -/

/-- `MenuService.findItemById` (lines 45-53): first item with the given
id that is available; on a load error the catch returns `null`. -/
def findItemById (menuW : Except Unit (List MenuItem)) (itemId : Nat) :
    Option MenuItem :=
  match menuW with
  | .error _ => none
  | .ok menu => menu.find? (fun item => item.id = itemId && item.available)

/-- `MenuService.searchItems` (lines 60-72): available items whose
lowercased name contains the lowercased term; on a load error the catch
returns `[]`. -/
def searchItems (menuW : Except Unit (List MenuItem)) (searchTerm : List Char) :
    List MenuItem :=
  match menuW with
  | .error _ => []
  | .ok menu =>
    let term := lowerL searchTerm
    menu.filter (fun item => item.available && containsSub term (lowerL item.name))

/-! ### CustomerService (`customerService.js`) -/

/-- `CustomerService.getCustomer` (lines 12-19): the row, or `null` when
the store throws. -/
def getCustomer (env : Env) : Option Customer :=
  match env.customerW with
  | .error _ => none
  | .ok c => c

/-- JS falsiness of a nullable text column: `null` or `''`. -/
def strFalsy : Option String → Bool
  | none => true
  | some s => s = ""

/-- `CustomerService.isNewCustomer` (lines 26-34):
`!customer || !customer.name || customer.name === 'Customer'`. -/
def isNewCustomer (env : Env) : Bool :=
  match getCustomer env with
  | none => true
  | some customer => strFalsy customer.name || customer.name = some "Customer"

/-- `CustomerService.needsCurrentLocation` (lines 41-68). -/
def needsCurrentLocation (env : Env) : Bool :=
  match getCustomer env with
  | none => false
  | some customer =>
    if strFalsy customer.name || customer.name = some "Customer" then false
    else
      match customer.lastLocationUpdate with
      | none => true
      | some lastUpdate =>
        strFalsy customer.currentLocation ||
        (env.now - lastUpdate) > 30 * 60 * 1000 ||
        !customer.sessionActive

/-- `CustomerService.needsLocation` (lines 75-83):
`customer && customer.name && customer.name !== 'Customer' && !customer.location`. -/
def needsLocation (env : Env) : Bool :=
  match getCustomer env with
  | none => false
  | some customer =>
    !strFalsy customer.name && customer.name ≠ some "Customer" &&
    strFalsy customer.location

/-! ### Name and location heuristics (`customerService.js` lines 211-292) -/

/-- Boolean scan of an unanchored regex test at every position. -/
def scanB (f : List Char → Bool) : List Char → Bool
  | [] => f []
  | c :: rest => f (c :: rest) || scanB f rest

/-- One alternative of `(order|want|get me|i want)\s+` at this position:
the verb literally, then at least one whitespace character. -/
def verbWsAt (v : List Char) (s : List Char) : Bool :=
  List.isPrefixOf v s &&
    (match s.drop v.length with
     | c :: _ => jsWs c
     | [] => false)

/-- `/(order|want|get me|i want)\s+/` as an unanchored test. -/
def hasOrderVerbWs (l : List Char) : Bool :=
  scanB (fun s =>
    verbWsAt "order".toList s || verbWsAt "want".toList s ||
    verbWsAt "get me".toList s || verbWsAt "i want".toList s) l

/-- `/^(pay|payment|paid)\s/`: alternatives in source order, each
followed by a single whitespace character. -/
def startsPayWs (l : List Char) : Bool :=
  verbWsAt "pay".toList l || verbWsAt "payment".toList l ||
  verbWsAt "paid".toList l

/-- The apostrophe character, `'`. -/
def apos : Char := Char.ofNat 39

/-- The literal `i'm`. -/
def imLit : List Char := ['i', apos, 'm']

/-- The `skipMessages` list of `parseNameResponse`. -/
def skipMessagesName : List (List Char) :=
  ["menu", "help", "hi", "hello", "order", "status", "search",
   "yes", "no", "ok", "thanks", "thank you", "payment", "pay", "paid",
   "payment help", "payment options", "payment status", "pay cod",
   "pay upi"].map String.toList

/-- `replace(/^(my name is|i am|i'm|name is|call me)/i, '')`:
alternatives in source order, case-insensitively, at the start only. -/
def stripNameFiller (l : List Char) : List Char :=
  if ciStarts "my name is".toList l then l.drop 10
  else if ciStarts "i am".toList l then l.drop 4
  else if ciStarts imLit l then l.drop 3
  else if ciStarts "name is".toList l then l.drop 7
  else if ciStarts "call me".toList l then l.drop 7
  else l

/-- The character class `[a-zA-Z\s\-'.]`. -/
def nameClass (c : Char) : Bool :=
  isAlpha c || jsWs c || c = '-' || c = apos || c = '.'

/-- `replace(/\b\w/g, l => l.toUpperCase())`: uppercase every word
character not preceded by a word character. -/
def titleCaseGo (prevWord : Bool) : List Char → List Char
  | [] => []
  | c :: rest =>
    (if isWord c && !prevWord then c.toUpper else c) :: titleCaseGo (isWord c) rest

/-- Title-casing as `parseNameResponse` applies it. -/
def titleCase (l : List Char) : List Char := titleCaseGo false l

/-- `CustomerService.parseNameResponse` (lines 211-251), returning the
accepted (title-cased) name. -/
def parseNameResponse (message : List Char) : Option (List Char) :=
  let normalizedMessage := jsTrim message
  if skipMessagesName.contains (lowerL normalizedMessage) then none
  else if hasOrderVerbWs (lowerL normalizedMessage) then none
  else if startsPayWs (lowerL normalizedMessage) then none
  else if 2 ≤ normalizedMessage.length && normalizedMessage.length ≤ 50 then
    let cleanName := jsTrim (stripNameFiller normalizedMessage)
    if 2 ≤ cleanName.length && cleanName.length ≤ 50 &&
        cleanName.all nameClass then
      some (titleCase cleanName)
    else none
  else none

/-- The `skipMessages` list of `parseLocationResponse`. -/
def skipMessagesLoc : List (List Char) :=
  ["menu", "help", "hi", "hello", "order", "status", "search",
   "yes", "no", "ok", "thanks", "thank you"].map String.toList

/-- `replace(/^(my location is|i am at|i'm at|location is|i live at|address is)/i, '')`. -/
def stripLocFiller (l : List Char) : List Char :=
  if ciStarts "my location is".toList l then l.drop 14
  else if ciStarts "i am at".toList l then l.drop 7
  else if ciStarts (['i', apos, 'm', ' ', 'a', 't']) l then l.drop 6
  else if ciStarts "location is".toList l then l.drop 11
  else if ciStarts "i live at".toList l then l.drop 9
  else if ciStarts "address is".toList l then l.drop 10
  else l

/-- The character class `[a-zA-Z0-9\s\-',.()\/#&]`. -/
def locClass (c : Char) : Bool :=
  isAlpha c || isDig c || jsWs c || c = '-' || c = apos || c = ',' ||
  c = '.' || c = '(' || c = ')' || c = '/' || c = '#' || c = '&'

/-- `CustomerService.parseLocationResponse` (lines 258-292), returning
the accepted location. -/
def parseLocationResponse (message : List Char) : Option (List Char) :=
  let normalizedMessage := jsTrim message
  if skipMessagesLoc.contains (lowerL normalizedMessage) then none
  else if hasOrderVerbWs (lowerL normalizedMessage) then none
  else if 3 ≤ normalizedMessage.length && normalizedMessage.length ≤ 200 then
    let cleanLocation := jsTrim (stripLocFiller normalizedMessage)
    if !cleanLocation.isEmpty && cleanLocation.all locClass then
      some cleanLocation
    else none
  else none

/-! ### Order grammars (`messageParser.js` lines 180-415) -/

/-- `\s+for\s+\w+.*$` tested against a whole suffix: whitespace, `for`
(case-insensitively), whitespace, a word, then anything
line-terminator-free up to the end. -/
def matchForClause (t : List Char) : Bool :=
  let a := t.takeWhile jsWs
  let r := t.dropWhile jsWs
  !a.isEmpty && ciStarts "for".toList r &&
    (let r2 := r.drop 3
     let b := r2.takeWhile jsWs
     let r3 := r2.dropWhile jsWs
     !b.isEmpty &&
       (let c := r3.takeWhile isWord
        let d := r3.dropWhile isWord
        !c.isEmpty && d.all isDot))

/-- The optional trailing group `(?:\s+for\s+\w+.*)?$` of the
multi-order pattern: empty remainder or a full `for` clause. -/
def optForTail (t : List Char) : Bool := t.isEmpty || matchForClause t

/-- `\s+for\s+\w+$` tested against a whole suffix (the optional tail of
the third single-order pattern: no `.*`, so the word must end the
string). -/
def forWordEnd (t : List Char) : Bool :=
  let a := t.takeWhile jsWs
  let r := t.dropWhile jsWs
  !a.isEmpty && ciStarts "for".toList r &&
    (let r2 := r.drop 3
     let b := r2.takeWhile jsWs
     let r3 := r2.dropWhile jsWs
     !b.isEmpty && !r3.isEmpty && r3.all isWord)

/-- The optional trailing group `(?:\s+for\s+\w+)?$`. -/
def optForWordTail (t : List Char) : Bool := t.isEmpty || forWordEnd t

/-- The lazy `(.+?)` before an optional tail: the shortest nonempty
line-terminator-free prefix whose remainder satisfies `tailOk`. -/
def lazyFind (tailOk : List Char → Bool) (L : List Char) : Option (List Char) :=
  (List.range' 1 L.length).findSome? (fun n =>
    if (L.take n).all isDot && tailOk (L.drop n) then some (L.take n) else none)

/-- Greedy `\s+` before a lazy capture, with backtracking: try the
maximal whitespace run first, then shorter ones down to one character. -/
def lazyCapWsGo (tailOk : List Char → Bool) (rest : List Char) :
    Nat → Option (List Char)
  | 0 => none
  | k + 1 =>
    match lazyFind tailOk (rest.drop (k + 1)) with
    | some cap => some cap
    | none => lazyCapWsGo tailOk rest k

/-- `\s+(.+?)<tail>` where `<tail>` is an optional group ending at `$`. -/
def lazyCapWs (tailOk : List Char → Bool) (rest : List Char) :
    Option (List Char) :=
  lazyCapWsGo tailOk rest ((rest.takeWhile jsWs).length)

/-- The verb alternation `(?:order|want|get me|i want)` at this position
(case-insensitively); the alternatives start with distinct characters,
so at most one applies. -/
def orderVerbRest (s : List Char) : Option (List Char) :=
  if ciStarts "order".toList s then some (s.drop 5)
  else if ciStarts "want".toList s then some (s.drop 4)
  else if ciStarts "get me".toList s then some (s.drop 6)
  else if ciStarts "i want".toList s then some (s.drop 6)
  else none

/-- The multi-order pattern
`/(?:order|want|get me|i want)\s+(.+?)(?:\s+for\s+\w+.*)?$/i` at one
position. -/
def multiAt (s : List Char) : Option (List Char) :=
  match orderVerbRest s with
  | some rest => lazyCapWs optForTail rest
  | none => none

/-- Leftmost match of the multi-order pattern, returning capture 1. -/
def findMultiCapture (message : List Char) : Option (List Char) :=
  scanO multiAt message

/-- The item-separator regex
`/\s*(?:,\s*and\s*|,\s*|\s+and\s+|\s*\+\s*)\s*/` at one position: the
returned number is the length of the separator match.  The three
alternative families are distinguished by the first non-whitespace
character, so the regex alternation order collapses to this case
split. -/
def sepMatchAt (s : List Char) : Option Nat :=
  let w := s.takeWhile jsWs
  let r := s.dropWhile jsWs
  match r with
  | [] => none
  | c :: r2 =>
    if c = ',' then
      let w2 := r2.takeWhile jsWs
      let r3 := r2.dropWhile jsWs
      if List.isPrefixOf "and".toList r3 then
        some (w.length + 1 + w2.length + 3 + ((r3.drop 3).takeWhile jsWs).length)
      else some (w.length + 1 + w2.length)
    else if c = '+' then
      some (w.length + 1 + (r2.takeWhile jsWs).length)
    else if !w.isEmpty && List.isPrefixOf "and".toList r &&
        !((r.drop 3).takeWhile jsWs).isEmpty then
      some (w.length + 3 + ((r.drop 3).takeWhile jsWs).length)
    else none

/-- `String.prototype.split` on the separator regex: scan left to right,
cut at every separator match.  Every separator match is nonempty, so the
fuel `length + 1` always suffices. -/
def splitGo : Nat → List Char → List Char → List (List Char)
  | 0, s, seg => [seg.reverse ++ s]
  | fuel + 1, s, seg =>
    match s with
    | [] => [seg.reverse]
    | c :: rest =>
      match sepMatchAt s with
      | some n => seg.reverse :: splitGo fuel (s.drop n) []
      | none => splitGo fuel rest (c :: seg)

/-- `itemsText.split(separator)`. -/
def jsSplitSep (l : List Char) : List (List Char) := splitGo (l.length + 1) l []

/-- Cut a string at the leftmost suffix satisfying `test` (JS
`replace(re, '')` for an `...$`-anchored regex). -/
def cutAtFirst (test : List Char → Bool) : List Char → List Char
  | [] => []
  | c :: rest => if test (c :: rest) then [] else c :: cutAtFirst test rest

/-- `(delivery|pickup|takeaway|dine-in).*$` at a suffix position. -/
def deliveryWordAt (t : List Char) : Bool :=
  (ciStarts "delivery".toList t && (t.drop 8).all isDot) ||
  (ciStarts "pickup".toList t && (t.drop 6).all isDot) ||
  (ciStarts "takeaway".toList t && (t.drop 8).all isDot) ||
  (ciStarts "dine-in".toList t && (t.drop 7).all isDot)

/-- `\s+(for\s+)?(delivery|pickup|takeaway|dine-in).*$` at a suffix. -/
def deliveryClause (s : List Char) : Bool :=
  let a := s.takeWhile jsWs
  let r := s.dropWhile jsWs
  !a.isEmpty &&
    ((ciStarts "for".toList r && !((r.drop 3).takeWhile jsWs).isEmpty &&
      deliveryWordAt ((r.drop 3).dropWhile jsWs)) || deliveryWordAt r)

/-- `\s+(please|urgent|asap|now).*$` at a suffix. -/
def politeClause (s : List Char) : Bool :=
  let a := s.takeWhile jsWs
  let r := s.dropWhile jsWs
  !a.isEmpty &&
    ((ciStarts "please".toList r && (r.drop 6).all isDot) ||
     (ciStarts "urgent".toList r && (r.drop 6).all isDot) ||
     (ciStarts "asap".toList r && (r.drop 4).all isDot) ||
     (ciStarts "now".toList r && (r.drop 3).all isDot))

/-- `MessageParser.cleanItemName` (lines 404-415): three successive
`replace(..., '')` passes, then `trim`. -/
def cleanItemName (itemName : List Char) : List Char :=
  jsTrim (cutAtFirst politeClause
    (cutAtFirst deliveryClause (cutAtFirst matchForClause itemName)))

/-- `(\d+)\s+item\s+(\d+)` at one position. -/
def p1At (s : List Char) : Option (Nat × Nat) :=
  let d1 := s.takeWhile isDig
  if d1.isEmpty then none else
  let r1 := s.drop d1.length
  let w1 := r1.takeWhile jsWs
  if w1.isEmpty then none else
  let r2 := r1.drop w1.length
  if ciStarts "item".toList r2 then
    let r3 := r2.drop 4
    let w2 := r3.takeWhile jsWs
    if w2.isEmpty then none else
    let d2 := (r3.drop w2.length).takeWhile isDig
    if d2.isEmpty then none else some (natOfDigits d1, natOfDigits d2)
  else none

/-- `(\d+)\s+#(\d+)` at one position. -/
def p2At (s : List Char) : Option (Nat × Nat) :=
  let d1 := s.takeWhile isDig
  if d1.isEmpty then none else
  let r1 := s.drop d1.length
  let w1 := r1.takeWhile jsWs
  if w1.isEmpty then none else
  match r1.drop w1.length with
  | '#' :: r2 =>
    let d2 := r2.takeWhile isDig
    if d2.isEmpty then none else some (natOfDigits d1, natOfDigits d2)
  | _ => none

/-- `(\d+)\s+(.+)` at one position. -/
def p3At (s : List Char) : Option (Nat × List Char) :=
  let d1 := s.takeWhile isDig
  if d1.isEmpty then none else
  match wsDotPlusFree (s.drop d1.length) with
  | some cap => some (natOfDigits d1, cap)
  | none => none

/-- `if (menuItem && quantity > 0)` → the line
`{quantity, menuItem, total: quantity * price}`. -/
def segLine (menuItem : Option MenuItem) (quantity : Nat) : Option OrderLine :=
  match menuItem with
  | some mi => if quantity > 0 then some ⟨quantity, mi, quantity * mi.price⟩ else none
  | none => none

/-- `MessageParser.parseSingleItemSegment` (lines 258-308): the three
item patterns in order; a pattern match whose item lookup fails (or
whose quantity is 0) falls through to the next pattern, as the source
loop does. -/
def parseSingleItemSegment (env : Env) (segment : List Char) : Option OrderLine :=
  (match scanO p1At segment with
   | some (q, i) => segLine (findItemById env.menuW i) q
   | none => none).orElse (fun _ =>
  (match scanO p2At segment with
   | some (q, i) => segLine (findItemById env.menuW i) q
   | none => none).orElse (fun _ =>
  match scanO p3At segment with
  | some (q, cap) =>
    let itemName := cleanItemName (jsTrim cap)
    segLine (searchItems env.menuW itemName).head? q
  | none => none))

/-- The `for` loop of `parseMultipleOrderMessage` (lines 227-233):
resolve each trimmed segment, dropping failures, accumulating the
lines and the running total. -/
def collectItems (env : Env) (segs : List (List Char)) : List OrderLine × Nat :=
  segs.foldl
    (fun acc segment =>
      match parseSingleItemSegment env (jsTrim segment) with
      | some itemData => (acc.1 ++ [itemData], acc.2 + itemData.total)
      | none => acc)
    ([], 0)

/-- `MessageParser.parseMultipleOrderMessage` (lines 207-251). -/
def parseMultipleOrderMessage (env : Env) (message : List Char) :
    Option OrderData :=
  match findMultiCapture message with
  | none => none
  | some cap =>
    let itemsText := jsTrim cap
    let itemSegments := jsSplitSep itemsText
    let oi := collectItems env itemSegments
    if oi.1.length > 1 then some (.multiple oi.1 oi.2 true)
    else
      match oi.1 with
      | [only] => some (.single only.quantity only.menuItem only.total)
      | _ => none

/-- Single-order pattern 1,
`/(?:order|want|get me|i want)\s+(\d+)\s+item\s+(\d+)/i`, at one
position. -/
def s1At (s : List Char) : Option (Nat × Nat) :=
  match orderVerbRest s with
  | some rest =>
    let w := rest.takeWhile jsWs
    if w.isEmpty then none else p1At (rest.drop w.length)
  | none => none

/-- Single-order pattern 2,
`/(?:order|want|get me|i want)\s+(\d+)\s+#(\d+)/i`, at one position. -/
def s2At (s : List Char) : Option (Nat × Nat) :=
  match orderVerbRest s with
  | some rest =>
    let w := rest.takeWhile jsWs
    if w.isEmpty then none else p2At (rest.drop w.length)
  | none => none

/-- Single-order pattern 3,
`/(?:order|want|get me|i want)\s+(\d+)\s+(.+?)(?:\s+for\s+\w+)?$/i`, at
one position. -/
def s3At (s : List Char) : Option (Nat × List Char) :=
  match orderVerbRest s with
  | some rest =>
    let w := rest.takeWhile jsWs
    if w.isEmpty then none else
    let d := (rest.drop w.length).takeWhile isDig
    if d.isEmpty then none else
    match lazyCapWs optForWordTail ((rest.drop w.length).drop d.length) with
    | some cap => some (natOfDigits d, cap)
    | none => none
  | none => none

/-- `MessageParser.parseSingleOrderMessage` (lines 315-372): the three
order patterns in order, with the same fall-through on failed lookups
as the segment parser. -/
def parseSingleOrderMessage (env : Env) (message : List Char) :
    Option OrderData :=
  ((match scanO s1At message with
    | some (q, i) => segLine (findItemById env.menuW i) q
    | none => none).orElse (fun _ =>
   (match scanO s2At message with
    | some (q, i) => segLine (findItemById env.menuW i) q
    | none => none).orElse (fun _ =>
   match scanO s3At message with
   | some (q, cap) =>
     let itemName := cleanItemName (jsTrim cap)
     segLine (searchItems env.menuW itemName).head? q
   | none => none))).map
    (fun (l : OrderLine) => OrderData.single l.quantity l.menuItem l.total)

/-- `MessageParser.parseOrderMessage` (lines 185-200): multi-item first
(its result, when non-null, always carries either a nonempty `items`
list or a `menuItem`, so the source's shape test always returns it),
then the single-item fallback. -/
def parseOrderMessage (env : Env) (message : List Char) : Option OrderData :=
  match parseMultipleOrderMessage env message with
  | some d => some d
  | none => parseSingleOrderMessage env message

/-! ### Keyword tests (`messageParser.js` lines 145-178) -/

/-- `MessageParser.isGreeting`. -/
def isGreeting (message : List Char) : Bool :=
  ["hi", "hello", "hey", "good morning", "good afternoon",
   "good evening"].any (fun g => containsSub g.toList message)

/-- `MessageParser.isMenuRequest`. -/
def isMenuRequest (message : List Char) : Bool :=
  ["menu", "food", "items", "available", "what do you have",
   "options"].any (fun k => containsSub k.toList message)

/-- `MessageParser.isHelpRequest`. -/
def isHelpRequest (message : List Char) : Bool :=
  ["help", "how", "commands", "instructions",
   "guide"].any (fun k => containsSub k.toList message)

/-- `MessageParser.isStatusRequest`. -/
def isStatusRequest (message : List Char) : Bool :=
  ["status", "order status", "my orders", "recent orders",
   "check order"].any (fun k => containsSub k.toList message)

/-! ### Search grammar (`messageParser.js` lines 379-397) -/

/-- `<keyword>\s+(.+)` at one position (the keyword compared
case-insensitively, per the `/i` flag). -/
def kwCapAt (kw : List Char) (s : List Char) : Option (List Char) :=
  if ciStarts kw s then wsDotPlusFree (s.drop kw.length) else none

/-- `MessageParser.parseSearchMessage`: the four search patterns in
order, each fully scanned before the next; the capture is trimmed. -/
def parseSearchMessage (message : List Char) : Option (List Char) :=
  ((scanO (kwCapAt "search".toList) message).orElse (fun _ =>
   (scanO (kwCapAt "find".toList) message).orElse (fun _ =>
   (scanO (kwCapAt "show me".toList) message).orElse (fun _ =>
   scanO (kwCapAt "do you have".toList) message)))).map jsTrim

/-! ### Payment parsing (`messageParser.js` lines 667-723) -/

/-- `MessageParser.parsePaymentCommand`: method selection, then the
`paid`/`confirm payment` capture, then the three exact inquiries;
`none` models the final `return null`. -/
def parsePaymentCommand (message : List Char) (customerPhone : String) :
    Option Parsed :=
  match matchPayMethod message with
  | some method =>
    some ⟨"select_payment_method",
      .payMethod method customerPhone
        [("cod".toList, "cod".toList), ("upi".toList, "upi".toList)]⟩
  | none =>
  match matchPaidCmd message with
  | some cap => some ⟨"confirm_payment", .txn (jsTrim cap) customerPhone⟩
  | none =>
  if message = "payment status".toList then
    some ⟨"payment_status", .phoneData customerPhone⟩
  else if message = "payment options".toList then
    some ⟨"payment_options", .phoneData customerPhone⟩
  else if message = "payment help".toList then
    some ⟨"payment_help", .phoneData customerPhone⟩
  else none

/-! ### Owner commands (`messageParser.js` lines 484-643) -/

/-- `MessageParser.isOwnerPhone`: `phone === process.env.RESTAURANT_OWNER_PHONE`
(false whenever the variable is unset). -/
def isOwnerPhone (env : Env) (phone : String) : Bool :=
  match env.ownerPhone with
  | some owner => phone = owner
  | none => false

/-- `^<pre>(.+)$`: the literal prefix, then at least one character, no
line terminator, up to the end. -/
def anchCap (pre : List Char) (l : List Char) : Option (List Char) :=
  if List.isPrefixOf pre l then
    let r := l.drop pre.length
    if !r.isEmpty && r.all isDot then some r else none
  else none

/-- `^<pre>(\w+)$`. -/
def wordCapEnd (pre : List Char) (l : List Char) : Option (List Char) :=
  if List.isPrefixOf pre l then
    let r := l.drop pre.length
    if !r.isEmpty && r.all isWord then some r else none
  else none

/-- `\d+(\.\d+)?` at the front: the (greedy) integer digits, optional
fraction digits, and the rest of the string. -/
def parseNumTok (l : List Char) : Option ((List Char × List Char) × List Char) :=
  let d := l.takeWhile isDig
  if d.isEmpty then none else
  let r := l.drop d.length
  match r with
  | '.' :: r2 =>
    let f := r2.takeWhile isDig
    if f.isEmpty then some ((d, []), r) else some ((d, f), r2.drop f.length)
  | _ => some ((d, []), r)

/-- `/^add item (.+?) (\d+(?:\.\d+)?)(?:\s+(.+))?$/`: lazy item name (the
shortest prefix followed by a literal space, the price number and a
well-formed optional description).  Returns (name, price, description),
the name and description trimmed as the source does. -/
def matchAddItem (l : List Char) : Option (List Char × Rat × List Char) :=
  if List.isPrefixOf "add item ".toList l then
    let rest := l.drop 9
    (List.range' 1 rest.length).findSome? (fun n =>
      if (rest.take n).all isDot &&
          (match rest.drop n with | ' ' :: _ => true | _ => false) then
        match parseNumTok (rest.drop (n + 1)) with
        | some ((d, f), r) =>
          if r.isEmpty then some (jsTrim (rest.take n), ratOfNum d f, [])
          else
            match wsDotPlusEnd r with
            | some desc => some (jsTrim (rest.take n), ratOfNum d f, jsTrim desc)
            | none => none
        | none => none
      else none)
  else none

/-- `/^edit item (.+?) price (\d+(?:\.\d+)?)$/`. -/
def matchEditPrice (l : List Char) : Option (List Char × Rat) :=
  if List.isPrefixOf "edit item ".toList l then
    let rest := l.drop 10
    (List.range' 1 rest.length).findSome? (fun n =>
      if (rest.take n).all isDot &&
          List.isPrefixOf " price ".toList (rest.drop n) then
        match parseNumTok (rest.drop (n + 7)) with
        | some ((d, f), []) => some (jsTrim (rest.take n), ratOfNum d f)
        | _ => none
      else none)
  else none

/-- `/^edit item (.+?) name (.+)$/`. -/
def matchEditName (l : List Char) : Option (List Char × List Char) :=
  if List.isPrefixOf "edit item ".toList l then
    let rest := l.drop 10
    (List.range' 1 rest.length).findSome? (fun n =>
      if (rest.take n).all isDot &&
          List.isPrefixOf " name ".toList (rest.drop n) then
        let r := rest.drop (n + 6)
        if !r.isEmpty && r.all isDot then
          some (jsTrim (rest.take n), jsTrim r)
        else none
      else none)
  else none

/-- `MessageParser.parseOwnerCommand` (lines 493-643): the owner
grammars in source order (all case-sensitive: none of these regexes
carries the `/i` flag; the input is already lowercased). -/
def parseOwnerCommand (message : List Char) : Option Parsed :=
  if message = "orders".toList || message = "all orders".toList then
    some ⟨"owner_orders", .filterData "pending".toList⟩
  else if message = "orders today".toList then
    some ⟨"owner_orders", .filterData "today".toList⟩
  else if message = "orders pending".toList then
    some ⟨"owner_orders", .filterData "pending".toList⟩
  else if message = "orders completed".toList then
    some ⟨"owner_orders", .filterData "completed".toList⟩
  else
  match anchCap "complete order ".toList message with
  | some cap => some ⟨"owner_complete_order", .orderIdData (jsTrim cap)⟩
  | none =>
  match (wordCapEnd "complete ".toList message).orElse
      (fun _ => wordCapEnd "done ".toList message) with
  | some cap => some ⟨"owner_complete_order", .orderIdData (jsTrim cap)⟩
  | none =>
  match anchCap "cancel order ".toList message with
  | some cap => some ⟨"owner_cancel_order", .orderIdData (jsTrim cap)⟩
  | none =>
  if message = "stats".toList || message = "summary".toList ||
      message = "dashboard".toList then
    some ⟨"owner_stats", .emptyData⟩
  else if message = "menu manage".toList || message = "manage menu".toList ||
      message = "menu admin".toList then
    some ⟨"owner_menu_manage", .emptyData⟩
  else
  match matchAddItem message with
  | some (nm, price, desc) => some ⟨"owner_add_item", .addItemData nm price desc⟩
  | none =>
  match matchEditPrice message with
  | some (ident, p) => some ⟨"owner_edit_item", .editItemData ident (.price p)⟩
  | none =>
  match matchEditName message with
  | some (ident, n) => some ⟨"owner_edit_item", .editItemData ident (.rename n)⟩
  | none =>
  match anchCap "delete item ".toList message with
  | some cap => some ⟨"owner_delete_item", .identifierData (jsTrim cap)⟩
  | none =>
  match anchCap "toggle item ".toList message with
  | some cap => some ⟨"owner_toggle_item", .identifierData (jsTrim cap)⟩
  | none => none

/-! ### The resolver (`messageParser.js` lines 21-138) -/

/-- `message.toLowerCase().trim()` (line 22). -/
def normalizeMsg (message : String) : List Char :=
  jsTrim (lowerL message.toList)

/-- `MessageParser.parseMessage`: normalize, payment commands first,
then the onboarding gate for non-owners, then order placement, help,
status, owner commands, greeting/menu, search, and the `unknown`
fallback.  `Data.phoneData` stands for both the `{customerPhone}` and
the `{phone}` singleton payloads of the source. -/
def parseMessage (env : Env) (message : String) (customerPhone : String) :
    Option Parsed :=
  let msg := message.toList
  let normalizedMessage := normalizeMsg message
  if isPaymentCommand normalizedMessage then
    parsePaymentCommand normalizedMessage customerPhone
  else if !isOwnerPhone env customerPhone && isNewCustomer env then
    match parseNameResponse msg with
    | some nm => some ⟨"save_customer_name", .nameData nm customerPhone⟩
    | none => some ⟨"request_customer_name", .phoneData customerPhone⟩
  else if !isOwnerPhone env customerPhone && needsLocation env then
    match parseLocationResponse msg with
    | some loc => some ⟨"save_customer_location", .locationData loc customerPhone⟩
    | none => some ⟨"request_customer_location", .phoneData customerPhone⟩
  else if !isOwnerPhone env customerPhone && needsCurrentLocation env then
    match parseLocationResponse msg with
    | some loc => some ⟨"save_current_location", .currentLocationData loc customerPhone⟩
    | none => some ⟨"request_current_location", .phoneData customerPhone⟩
  else
    match parseOrderMessage env normalizedMessage with
    | some od => some ⟨"place_order", .orderData od⟩
    | none =>
    if isHelpRequest normalizedMessage then some ⟨"help", .emptyData⟩
    else if isStatusRequest normalizedMessage then
      some ⟨"order_status", .phoneData customerPhone⟩
    else
      match (if isOwnerPhone env customerPhone then
               parseOwnerCommand normalizedMessage
             else none) with
      | some ownerCommand => some ownerCommand
      | none =>
        if isGreeting normalizedMessage || isMenuRequest normalizedMessage then
          some ⟨"show_menu", .emptyData⟩
        else
          match parseSearchMessage normalizedMessage with
          | some searchTerm => some ⟨"search_menu", .searchData searchTerm⟩
          | none => some ⟨"unknown", .unknownData message⟩

/-! ### Intent enumerations and support values -/

/-- The five intents `parsePaymentCommand` can produce. -/
def paymentIntents : List String :=
  ["select_payment_method", "confirm_payment", "payment_status",
   "payment_options", "payment_help"]

/-- The nine owner-tagged intents. -/
def ownerIntents : List String :=
  ["owner_orders", "owner_complete_order", "owner_cancel_order",
   "owner_stats", "owner_menu_manage", "owner_add_item",
   "owner_edit_item", "owner_delete_item", "owner_toggle_item"]

/-- Every intent tag `parseMessage` can produce. -/
def intentTags : List String :=
  paymentIntents ++
  ["save_customer_name", "request_customer_name", "save_customer_location",
   "request_customer_location", "save_current_location",
   "request_current_location", "place_order", "help", "order_status"] ++
  ownerIntents ++ ["show_menu", "search_menu", "unknown"]

/-- The line items inside an order payload (a single-shape payload is
one line). -/
def orderLines : OrderData → List OrderLine
  | .multiple items _ _ => items
  | .single q mi t => [⟨q, mi, t⟩]

/-- A concrete available catalog entry priced 299. -/
def biryaniItem : MenuItem :=
  ⟨1, "Chicken Biryani".toList, "Fragrant rice".toList, 299,
   "Main Course".toList, true, "x".toList⟩

/-- A concrete available catalog entry priced 49. -/
def naanItem : MenuItem :=
  ⟨2, "Naan".toList, "Flat bread".toList, 49, "Breads".toList, true,
   "x".toList⟩

/-- A fully onboarded customer with a fresh session. -/
def activeCustomer : Customer :=
  ⟨"+111", some "Ann", some "MG Road", some "Office", some 0, true⟩

/-- Environment with the two-item catalog and an active customer;
the owner phone is `+999`. -/
def envC2 : Env := ⟨.ok [biryaniItem, naanItem], .ok (some activeCustomer), some "+999", 0⟩

/-- Environment for a brand-new sender (no customer row). -/
def envNewC : Env := ⟨.ok [biryaniItem, naanItem], .ok none, some "+999", 0⟩

/-- Environment whose catalog load fails, active customer. -/
def envMenuErr : Env := ⟨.error (), .ok (some activeCustomer), some "+999", 0⟩

/-- Environment with an empty catalog, active customer. -/
def envMenuEmpty : Env := ⟨.ok [], .ok (some activeCustomer), some "+999", 0⟩

/-! ### Helper lemmas -/

/-- ASCII lowercasing is idempotent. -/
theorem toLower_idem (c : Char) : c.toLower.toLower = c.toLower := by
  unfold Char.toLower
  by_cases h : c.toNat ≥ 65 ∧ c.toNat ≤ 90
  · have hval : (c.toNat + 32).isValidChar := by
      left
      omega
    have hv : (Char.ofNat (c.toNat + 32)).toNat = c.toNat + 32 := by
      unfold Char.ofNat
      rw [dif_pos hval]
      rfl
    simp only [if_pos h, hv]
    rw [if_neg (by omega)]
  · simp only [if_neg h]

/-- Lowercasing a list of characters is idempotent. -/
theorem lowerL_idem (l : List Char) : lowerL (lowerL l) = lowerL l := by
  simp only [lowerL, List.map_map]
  exact List.map_congr_left (fun c _ => toLower_idem c)

/-- The code point of a lowercased character. -/
theorem toNat_toLower (c : Char) :
    c.toLower.toNat = if 65 ≤ c.toNat ∧ c.toNat ≤ 90 then c.toNat + 32 else c.toNat := by
  unfold Char.toLower
  show (if c.toNat ≥ 65 ∧ c.toNat ≤ 90 then Char.ofNat (c.toNat + 32) else c).toNat = _
  by_cases h : 65 ≤ c.toNat ∧ c.toNat ≤ 90
  · have hval : (c.toNat + 32).isValidChar := by
      left
      omega
    rw [if_pos h, if_pos h]
    unfold Char.ofNat
    rw [dif_pos hval]
    rfl
  · rw [if_neg h, if_neg h]

/-- Lowercasing preserves the whitespace class. -/
theorem jsWs_toLower (c : Char) : jsWs c.toLower = jsWs c := by
  by_cases h : 65 ≤ c.toNat ∧ c.toNat ≤ 90
  · have hv : c.toLower.toNat = c.toNat + 32 := by
      rw [toNat_toLower, if_pos h]
    have hA : jsWs c.toLower = false := by
      simp only [jsWs, hv, Bool.or_eq_false_iff, decide_eq_false_iff_not]
      omega
    have hB : jsWs c = false := by
      simp only [jsWs, Bool.or_eq_false_iff, decide_eq_false_iff_not]
      omega
    rw [hA, hB]
  · have hv : c.toLower = c := by
      unfold Char.toLower
      show (if c.toNat ≥ 65 ∧ c.toNat ≤ 90 then Char.ofNat (c.toNat + 32) else c) = c
      rw [if_neg h]
    rw [hv]

/-- `dropWhile jsWs` commutes with lowercasing. -/
theorem dropWhile_jsWs_lowerL (x : List Char) :
    (lowerL x).dropWhile jsWs = lowerL (x.dropWhile jsWs) := by
  induction x with
  | nil => rfl
  | cons c t ih =>
    simp only [lowerL, List.map_cons, List.dropWhile_cons]
    rw [jsWs_toLower]
    by_cases h : jsWs c
    · rw [if_pos h, if_pos h]
      exact ih
    · rw [if_neg h, if_neg h]
      rfl

/-- Lowercasing commutes with reversal. -/
theorem lowerL_reverse (x : List Char) :
    lowerL x.reverse = (lowerL x).reverse := by
  unfold lowerL
  exact List.map_reverse _ _

/-- Trimming commutes with lowercasing. -/
theorem lowerL_jsTrim (l : List Char) :
    lowerL (jsTrim l) = jsTrim (lowerL l) := by
  unfold jsTrim
  rw [dropWhile_jsWs_lowerL, ← lowerL_reverse, dropWhile_jsWs_lowerL,
    ← lowerL_reverse]

/-- The normalized message is fixed by lowercasing. -/
theorem lowerL_normalizeMsg (m : String) :
    lowerL (normalizeMsg m) = normalizeMsg m := by
  unfold normalizeMsg
  rw [lowerL_jsTrim, lowerL_idem]

/-- A successful scan happened at some suffix of the input. -/
theorem scanO_eq_some {α : Type} (f : List Char → Option α) :
    ∀ (l : List Char) (r : α), scanO f l = some r →
      ∃ s, s.IsSuffix l ∧ f s = some r := by
  intro l
  induction l with
  | nil =>
    intro r h
    exact ⟨[], List.suffix_rfl, h⟩
  | cons c t ih =>
    intro r h
    unfold scanO at h
    cases hf : f (c :: t) with
    | some x =>
      rw [hf] at h
      cases h
      exact ⟨c :: t, List.suffix_rfl, hf⟩
    | none =>
      rw [hf] at h
      obtain ⟨s, hs, hfs⟩ := ih r h
      exact ⟨s, hs.trans (List.suffix_cons c t), hfs⟩

/-- An infix is found by `containsSub`. -/
theorem containsSub_of_infix {pat l : List Char} (h : pat.IsInfix l) :
    containsSub pat l = true := by
  induction l with
  | nil =>
    have : pat = [] := List.eq_nil_of_infix_nil h
    subst this
    rfl
  | cons c t ih =>
    rw [List.infix_cons_iff] at h
    unfold containsSub
    cases h with
    | inl hp =>
      rw [(List.isPrefixOf_iff_prefix).mpr hp]
      rfl
    | inr hi =>
      rw [ih hi]
      exact Bool.or_true _

/-- A list fixed by lowercasing is fixed pointwise. -/
theorem toLower_fix_of_mem {l : List Char} (h : lowerL l = l) :
    ∀ c ∈ l, c.toLower = c := by
  induction l with
  | nil =>
    intro c hc
    cases hc
  | cons a t ih =>
    unfold lowerL at h
    rw [List.map_cons] at h
    injection h with h1 h2
    intro c hc
    rcases List.mem_cons.mp hc with rfl | hm
    · exact h1
    · exact ih h2 c hm

/-- `paid` and `confirm payment` cannot both start a message. -/
theorem not_paid_and_confirm {l : List Char}
    (h1 : List.isPrefixOf "paid".toList l = true)
    (h2 : List.isPrefixOf "confirm payment".toList l = true) : False := by
  rw [List.isPrefixOf_iff_prefix] at h1 h2
  obtain ⟨t1, e1⟩ := h1
  obtain ⟨t2, e2⟩ := h2
  rw [← e1] at e2
  simp at e2

/-- `matchPayMethod` succeeds exactly on the two literal commands. -/
theorem matchPayMethod_some {l m : List Char} (h : matchPayMethod l = some m) :
    (l = "pay cod".toList ∧ m = "cod".toList) ∨
    (l = "pay upi".toList ∧ m = "upi".toList) := by
  unfold matchPayMethod at h
  split_ifs at h with h1 h2
  · cases h
    exact Or.inl ⟨h1, rfl⟩
  · cases h
    exact Or.inr ⟨h2, rfl⟩

/-- When the payment test fires, `parseMessage` returns exactly what
`parsePaymentCommand` returns. -/
theorem parseMessage_payment (env : Env) (message customerPhone : String)
    (h : isPaymentCommand (normalizeMsg message) = true) :
    parseMessage env message customerPhone =
      parsePaymentCommand (normalizeMsg message) customerPhone := by
  unfold parseMessage
  simp only [h, if_true]

/-- Membership of the payment tags, stated closed for reuse. -/
theorem select_mem_pay : "select_payment_method" ∈ paymentIntents := by decide

/-- Closed membership fact. -/
theorem confirm_mem_pay : "confirm_payment" ∈ paymentIntents := by decide

/-- Closed membership fact. -/
theorem status_mem_pay : "payment_status" ∈ paymentIntents := by decide

/-- Closed membership fact. -/
theorem options_mem_pay : "payment_options" ∈ paymentIntents := by decide

/-- Closed membership fact. -/
theorem help_mem_pay : "payment_help" ∈ paymentIntents := by decide

/-- If the payment test fires but neither the method nor the
paid/confirm matcher does, the message is one of the three literal
payment inquiries. -/
theorem matchPaymentWord_of (l : List Char) (h : isPaymentCommand l = true)
    (hm : matchPayMethod l = none) (hd : matchPaidCmd l = none) :
    matchPaymentWord l = true := by
  unfold isPaymentCommand at h
  simp only [Bool.or_eq_true, Bool.and_eq_true] at h
  rcases h with ((h1 | h2) | ⟨hp, hs⟩) | ⟨hp, hs⟩
  · rw [hm] at h1
    simp at h1
  · exact h2
  · unfold matchPaidCmd at hd
    rw [if_pos hp] at hd
    rw [hd] at hs
    simp at hs
  · by_cases hpp : List.isPrefixOf "paid".toList l = true
    · exact absurd (not_paid_and_confirm hpp hp) not_false
    · unfold matchPaidCmd at hd
      rw [if_neg hpp, if_pos hp] at hd
      rw [hd] at hs
      simp at hs

/-- C1: for every inbound message and sender phone, if the normalized
(lowercased, trimmed) message matches one of the payment grammars, the
resolver returns the corresponding payment intent, for every environment
(hence regardless of the sender's onboarding state, and before any
onboarding-state check is consulted). -/
theorem payment_commands_resolve_first (env : Env)
    (message customerPhone : String)
    (h : isPaymentCommand (normalizeMsg message) = true) :
    ∃ p, parsePaymentCommand (normalizeMsg message) customerPhone = some p ∧
      parseMessage env message customerPhone = some p ∧
      p.intent ∈ paymentIntents ∧
      (∀ m, matchPayMethod (normalizeMsg message) = some m →
        p = ⟨"select_payment_method", .payMethod m customerPhone
          [("cod".toList, "cod".toList), ("upi".toList, "upi".toList)]⟩) ∧
      (∀ cap, matchPaidCmd (normalizeMsg message) = some cap →
        p = ⟨"confirm_payment", .txn (jsTrim cap) customerPhone⟩) ∧
      (normalizeMsg message = "payment status".toList →
        p.intent = "payment_status") ∧
      (normalizeMsg message = "payment options".toList →
        p.intent = "payment_options") ∧
      (normalizeMsg message = "payment help".toList →
        p.intent = "payment_help") := by
  have hpm := parseMessage_payment env message customerPhone h
  cases hm : matchPayMethod (normalizeMsg message) with
  | some m0 =>
    have key : parsePaymentCommand (normalizeMsg message) customerPhone =
        some ⟨"select_payment_method", .payMethod m0 customerPhone
          [("cod".toList, "cod".toList), ("upi".toList, "upi".toList)]⟩ := by
      unfold parsePaymentCommand
      rw [hm]
    refine ⟨_, key, by rw [hpm, key], select_mem_pay, ?_, ?_, ?_, ?_, ?_⟩
    · intro m hm2
      cases hm2
      rfl
    · intro cap hcap
      rcases matchPayMethod_some hm with ⟨hn, _⟩ | ⟨hn, _⟩ <;> rw [hn] at hcap
      · rw [show matchPaidCmd "pay cod".toList = none from by decide] at hcap
        cases hcap
      · rw [show matchPaidCmd "pay upi".toList = none from by decide] at hcap
        cases hcap
    · intro hn
      rcases matchPayMethod_some hm with ⟨hn2, _⟩ | ⟨hn2, _⟩ <;>
        rw [hn2] at hn <;> exact absurd hn (by decide)
    · intro hn
      rcases matchPayMethod_some hm with ⟨hn2, _⟩ | ⟨hn2, _⟩ <;>
        rw [hn2] at hn <;> exact absurd hn (by decide)
    · intro hn
      rcases matchPayMethod_some hm with ⟨hn2, _⟩ | ⟨hn2, _⟩ <;>
        rw [hn2] at hn <;> exact absurd hn (by decide)
  | none =>
    cases hd : matchPaidCmd (normalizeMsg message) with
    | some cap0 =>
      have key : parsePaymentCommand (normalizeMsg message) customerPhone =
          some ⟨"confirm_payment", .txn (jsTrim cap0) customerPhone⟩ := by
        unfold parsePaymentCommand
        rw [hm, hd]
      refine ⟨_, key, by rw [hpm, key], confirm_mem_pay, ?_, ?_, ?_, ?_, ?_⟩
      · intro m hm2
        exact Option.noConfusion hm2
      · intro cap hcap
        cases hcap
        rfl
      · intro hn
        rw [hn, show matchPaidCmd "payment status".toList = none from by decide]
          at hd
        exact Option.noConfusion hd
      · intro hn
        rw [hn, show matchPaidCmd "payment options".toList = none from by decide]
          at hd
        exact Option.noConfusion hd
      · intro hn
        rw [hn, show matchPaidCmd "payment help".toList = none from by decide]
          at hd
        exact Option.noConfusion hd
    | none =>
      have hw : matchPaymentWord (normalizeMsg message) = true :=
        matchPaymentWord_of _ h hm hd
      unfold matchPaymentWord at hw
      simp only [Bool.or_eq_true, decide_eq_true_eq] at hw
      rcases hw with (hn | hn) | hn
      · have key : parsePaymentCommand (normalizeMsg message) customerPhone =
            some ⟨"payment_options", .phoneData customerPhone⟩ := by
          rw [hn]
          rfl
        refine ⟨_, key, by rw [hpm, key], options_mem_pay, ?_, ?_, ?_, ?_, ?_⟩
        · intro m hm2
          exact Option.noConfusion hm2
        · intro cap hcap
          exact Option.noConfusion hcap
        · intro h2
          rw [hn] at h2
          exact absurd h2 (by decide)
        · intro _
          rfl
        · intro h2
          rw [hn] at h2
          exact absurd h2 (by decide)
      · have key : parsePaymentCommand (normalizeMsg message) customerPhone =
            some ⟨"payment_status", .phoneData customerPhone⟩ := by
          rw [hn]
          rfl
        refine ⟨_, key, by rw [hpm, key], status_mem_pay, ?_, ?_, ?_, ?_, ?_⟩
        · intro m hm2
          exact Option.noConfusion hm2
        · intro cap hcap
          exact Option.noConfusion hcap
        · intro _
          rfl
        · intro h2
          rw [hn] at h2
          exact absurd h2 (by decide)
        · intro h2
          rw [hn] at h2
          exact absurd h2 (by decide)
      · have key : parsePaymentCommand (normalizeMsg message) customerPhone =
            some ⟨"payment_help", .phoneData customerPhone⟩ := by
          rw [hn]
          rfl
        refine ⟨_, key, by rw [hpm, key], help_mem_pay, ?_, ?_, ?_, ?_, ?_⟩
        · intro m hm2
          exact Option.noConfusion hm2
        · intro cap hcap
          exact Option.noConfusion hcap
        · intro h2
          rw [hn] at h2
          exact absurd h2 (by decide)
        · intro h2
          rw [hn] at h2
          exact absurd h2 (by decide)
        · intro _
          rfl

/-- C5 counterexample: the resolver lowercases the message before the
transaction id is captured, so `"paid TXN987654321"` yields the
transaction id `"txn987654321"`, not `"TXN987654321"` as claimed. -/
theorem confirm_payment_lowercases_txn :
    parseMessage envNewC "paid TXN987654321" "+111" =
      some ⟨"confirm_payment", .txn "txn987654321".toList "+111"⟩ ∧
    "txn987654321".toList ≠ "TXN987654321".toList := by
  constructor
  · decide
  · decide

/-- C5 amended: for the message `"paid TXN987654321"`, from any sender
and any onboarding state, the resolver returns `confirm_payment` whose
`transactionId` is the lowercased capture `"txn987654321"`. -/
theorem confirm_payment_txn_amended (env : Env) (ph : String) :
    parseMessage env "paid TXN987654321" ph =
      some ⟨"confirm_payment", .txn "txn987654321".toList ph⟩ := rfl

/-- C4 counterexample: a payment command sent by a brand-new, non-owner
sender does not match the name heuristic, yet resolves to
`select_payment_method`, not `request_customer_name`. -/
theorem new_customer_payment_overrides_reprompt :
    isOwnerPhone envNewC "+111" = false ∧
    isNewCustomer envNewC = true ∧
    parseNameResponse "pay cod".toList = none ∧
    parseMessage envNewC "pay cod" "+111" =
      some ⟨"select_payment_method", .payMethod "cod".toList "+111"
        [("cod".toList, "cod".toList), ("upi".toList, "upi".toList)]⟩ ∧
    "select_payment_method" ≠ "request_customer_name" := by
  refine ⟨by decide, by decide, by decide, by decide, by decide⟩

/-- C4 amended: for every non-owner sender in state NEW, every message
that is not a payment command and does not match the name heuristic
yields `request_customer_name` (the resolver itself performs no session
write: it is a pure function of the environment). -/
theorem new_customer_reprompt (env : Env) (m ph : String)
    (h1 : isPaymentCommand (normalizeMsg m) = false)
    (h2 : isOwnerPhone env ph = false)
    (h3 : isNewCustomer env = true)
    (h4 : parseNameResponse m.toList = none) :
    parseMessage env m ph = some ⟨"request_customer_name", .phoneData ph⟩ := by
  unfold parseMessage
  simp only [h1, h2, h3, h4, Bool.false_eq_true, if_false, Bool.not_false,
    Bool.true_and, if_true]

/-- C4 amended witness at the non-name message `"!!!"`. -/
theorem new_customer_reprompt_witness :
    parseMessage envNewC "!!!" "+111" =
      some ⟨"request_customer_name", .phoneData "+111"⟩ :=
  new_customer_reprompt envNewC "!!!" "+111" (by decide) (by decide)
    (by decide) (by decide)

/-- Acceptance predicate transcribed from the specification's wording
(claim C7): trim, strip the leading filler, then the *remainder* must be
2-50 characters of the name class and must not be a reserved keyword;
accepted names are title-cased.  Used only to compare the specification
against `parseNameResponse`. -/
def specNameAccept (message : List Char) : Option (List Char) :=
  let remainder := jsTrim (stripNameFiller (jsTrim message))
  if 2 ≤ remainder.length && remainder.length ≤ 50 &&
      remainder.all nameClass &&
      !(skipMessagesName.contains (lowerL remainder)) then
    some (titleCase remainder)
  else none

/-- C7 counterexample: `"my name is menu"` is accepted by the code (the
reserved-keyword check runs on the whole trimmed message, before
stripping), while the claim's acceptance predicate rejects it (the
remainder `"menu"` is reserved). -/
theorem name_heuristic_keyword_check_differs :
    parseNameResponse "my name is menu".toList = some "Menu".toList ∧
    specNameAccept "my name is menu".toList = none := by
  constructor
  · decide
  · decide

/-- C7 amended: `parseNameResponse` accepts a message iff the *whole
trimmed message* is not a reserved keyword, contains no order verb
followed by whitespace, does not begin with pay/payment/paid plus
whitespace, is itself 2-50 characters long, and the remainder after
stripping one leading filler phrase and trimming is 2-50 characters of
letters, whitespace, hyphen, apostrophe and period; accepted names are
the title-cased remainder. -/
theorem parseNameResponse_characterization (m : List Char) :
    (∀ r, parseNameResponse m = some r →
      r = titleCase (jsTrim (stripNameFiller (jsTrim m)))) ∧
    ((parseNameResponse m).isSome = true ↔
      (skipMessagesName.contains (lowerL (jsTrim m)) = false ∧
       hasOrderVerbWs (lowerL (jsTrim m)) = false ∧
       startsPayWs (lowerL (jsTrim m)) = false ∧
       2 ≤ (jsTrim m).length ∧ (jsTrim m).length ≤ 50 ∧
       2 ≤ (jsTrim (stripNameFiller (jsTrim m))).length ∧
       (jsTrim (stripNameFiller (jsTrim m))).length ≤ 50 ∧
       (jsTrim (stripNameFiller (jsTrim m))).all nameClass = true)) := by
  unfold parseNameResponse
  constructor
  · intro r hr
    dsimp only at hr
    split_ifs at hr with h1 h2 h3 h4 h5 <;>
      first
        | exact Option.noConfusion hr
        | (injection hr with hr2
           exact hr2.symm)
  · constructor
    · intro hs
      dsimp only at hs
      split_ifs at hs with h1 h2 h3 h4 h5
      · simp at hs
      · simp at hs
      · simp at hs
      · simp only [Bool.and_eq_true, decide_eq_true_eq] at h4 h5
        refine ⟨by simpa using h1, by simpa using h2, by simpa using h3,
          h4.1, h4.2, h5.1.1, h5.1.2, h5.2⟩
      · simp at hs
      · simp at hs
    · rintro ⟨hc, ho, hp, hl1, hl2, hcl1, hcl2, hclass⟩
      dsimp only
      rw [if_neg (by rw [hc]; exact Bool.false_ne_true),
        if_neg (by rw [ho]; exact Bool.false_ne_true),
        if_neg (by rw [hp]; exact Bool.false_ne_true),
        if_pos (by rw [decide_eq_true hl1, decide_eq_true hl2]; rfl),
        if_pos (by rw [decide_eq_true hcl1, decide_eq_true hcl2, hclass]; rfl)]
      rfl

/-- C7 amended witness: a concrete accepted name equals the title-cased
stripped remainder. -/
theorem parseNameResponse_characterization_witness :
    "John".toList =
      titleCase (jsTrim (stripNameFiller (jsTrim "my name is John".toList))) :=
  (parseNameResponse_characterization "my name is John".toList).1
    "John".toList (by decide)

/-- When both catalog lookups are trivial (failed load or empty menu),
no item segment resolves. -/
theorem parseSingleItemSegment_none (env : Env)
    (hf : ∀ i, findItemById env.menuW i = none)
    (hs : ∀ t, searchItems env.menuW t = []) (seg : List Char) :
    parseSingleItemSegment env seg = none := by
  unfold parseSingleItemSegment
  have e1 : (match scanO p1At seg with
      | some (q, i) => segLine (findItemById env.menuW i) q
      | none => none) = none := by
    cases h : scanO p1At seg with
    | none => rfl
    | some v =>
      obtain ⟨q, i⟩ := v
      simp [hf i, segLine]
  have e2 : (match scanO p2At seg with
      | some (q, i) => segLine (findItemById env.menuW i) q
      | none => none) = none := by
    cases h : scanO p2At seg with
    | none => rfl
    | some v =>
      obtain ⟨q, i⟩ := v
      simp [hf i, segLine]
  have e3 : (match scanO p3At seg with
      | some (q, cap) =>
        segLine (searchItems env.menuW (cleanItemName (jsTrim cap))).head? q
      | none => none) = none := by
    cases h : scanO p3At seg with
    | none => rfl
    | some v =>
      obtain ⟨q, cap⟩ := v
      simp [hs, segLine]
  rw [e1, e2, e3]
  rfl

/-- With trivial lookups the multi-item collector collects nothing. -/
theorem collectItems_none (env : Env)
    (hseg : ∀ seg, parseSingleItemSegment env seg = none) :
    ∀ segs, collectItems env segs = ([], 0) := by
  intro segs
  unfold collectItems
  induction segs with
  | nil => rfl
  | cons s t ih =>
    rw [List.foldl_cons, hseg (jsTrim s)]
    exact ih

/-- With trivial lookups no order parses. -/
theorem parseOrderMessage_none (env : Env)
    (hf : ∀ i, findItemById env.menuW i = none)
    (hs : ∀ t, searchItems env.menuW t = []) (msg : List Char) :
    parseOrderMessage env msg = none := by
  have hseg := parseSingleItemSegment_none env hf hs
  have hmulti : parseMultipleOrderMessage env msg = none := by
    unfold parseMultipleOrderMessage
    cases h : findMultiCapture msg with
    | none => rfl
    | some cap =>
      dsimp only
      rw [collectItems_none env hseg]
      rfl
  have hsingle : parseSingleOrderMessage env msg = none := by
    unfold parseSingleOrderMessage
    have e1 : (match scanO s1At msg with
        | some (q, i) => segLine (findItemById env.menuW i) q
        | none => none) = none := by
      cases h : scanO s1At msg with
      | none => rfl
      | some v =>
        obtain ⟨q, i⟩ := v
        simp [hf i, segLine]
    have e2 : (match scanO s2At msg with
        | some (q, i) => segLine (findItemById env.menuW i) q
        | none => none) = none := by
      cases h : scanO s2At msg with
      | none => rfl
      | some v =>
        obtain ⟨q, i⟩ := v
        simp [hf i, segLine]
    have e3 : (match scanO s3At msg with
        | some (q, cap) =>
          segLine (searchItems env.menuW (cleanItemName (jsTrim cap))).head? q
        | none => none) = none := by
      cases h : scanO s3At msg with
      | none => rfl
      | some v =>
        obtain ⟨q, cap⟩ := v
        simp [hs, segLine]
    rw [e1, e2, e3]
    rfl
  unfold parseOrderMessage
  rw [hmulti, hsingle]

/-- C3 counterexample: with the catalog load failing, the order message
`"order 2 naan"` resolves to the ordinary `unknown` no-match result —
byte-for-byte the same output as with an intact but empty catalog — so
no failure distinct from "no match" reaches the caller. -/
theorem catalog_failure_indistinguishable :
    parseMessage envMenuErr "order 2 naan" "+111" =
      some ⟨"unknown", .unknownData "order 2 naan"⟩ ∧
    parseMessage envMenuEmpty "order 2 naan" "+111" =
      some ⟨"unknown", .unknownData "order 2 naan"⟩ ∧
    searchItems (.error ()) "naan".toList = searchItems (.ok []) "naan".toList := by
  refine ⟨by decide, by decide, rfl⟩

/-- C3 amended: collaborator failures are swallowed inside the services
(`searchItems`/`findItemById` return the empty result, `getCustomer`
returns `null` making `isNewCustomer` true), and the resolver's output
under a failing catalog equals its output under an empty catalog — the
caller cannot distinguish a lookup failure from "no match". -/
theorem collaborator_failure_swallowed :
    (∀ t, searchItems (.error ()) t = []) ∧
    (∀ i, findItemById (.error ()) i = none) ∧
    (∀ mw ow n, isNewCustomer ⟨mw, .error (), ow, n⟩ = true) ∧
    (∀ cw ow n m ph,
      parseMessage ⟨.error (), cw, ow, n⟩ m ph =
        parseMessage ⟨.ok [], cw, ow, n⟩ m ph) := by
  refine ⟨fun t => rfl, fun i => rfl, fun mw ow n => rfl, ?_⟩
  intro cw ow n m ph
  have h1 : parseOrderMessage ⟨.error (), cw, ow, n⟩ (normalizeMsg m) = none :=
    parseOrderMessage_none ⟨.error (), cw, ow, n⟩ (fun _ => rfl) (fun _ => rfl) _
  have h2 : parseOrderMessage ⟨.ok [], cw, ow, n⟩ (normalizeMsg m) = none :=
    parseOrderMessage_none ⟨.ok [], cw, ow, n⟩ (fun _ => rfl) (fun _ => rfl) _
  unfold parseMessage
  dsimp only
  rw [h1, h2]
  simp only [isOwnerPhone, isNewCustomer, getCustomer, needsLocation,
    needsCurrentLocation]

/-- Every owner-command result carries an owner intent and never an
order payload. -/
theorem parseOwnerCommand_shape (l : List Char) (p : Parsed)
    (h : parseOwnerCommand l = some p) :
    p.intent ∈ ownerIntents ∧ ∀ od, p.data ≠ Data.orderData od := by
  unfold parseOwnerCommand at h
  repeat' split at h
  all_goals
    first
      | exact Option.noConfusion h
      | (cases h
         refine ⟨by simp [ownerIntents], ?_⟩
         intro od hod
         simp at hod)

/-- Every payment-command result carries a payment intent and never an
order payload. -/
theorem parsePaymentCommand_shape (l : List Char) (ph : String) (p : Parsed)
    (h : parsePaymentCommand l ph = some p) :
    p.intent ∈ paymentIntents ∧ ∀ od, p.data ≠ Data.orderData od := by
  unfold parsePaymentCommand at h
  repeat' split at h
  all_goals
    first
      | exact Option.noConfusion h
      | (cases h
         refine ⟨by simp [paymentIntents], ?_⟩
         intro od hod
         simp at hod)

/-- A firing payment test guarantees a payment result (the source's
`parsePaymentCommand` cannot return `null` when `isPaymentCommand` has
just accepted the message). -/
theorem parsePaymentCommand_total (l : List Char) (ph : String)
    (h : isPaymentCommand l = true) :
    ∃ p, parsePaymentCommand l ph = some p := by
  unfold parsePaymentCommand
  cases hm : matchPayMethod l with
  | some m0 => exact ⟨_, rfl⟩
  | none =>
    cases hd : matchPaidCmd l with
    | some cap => exact ⟨_, rfl⟩
    | none =>
      have hw := matchPaymentWord_of l h hm hd
      unfold matchPaymentWord at hw
      simp only [Bool.or_eq_true, decide_eq_true_eq] at hw
      rcases hw with (hn | hn) | hn
      · refine ⟨⟨"payment_options", .phoneData ph⟩, ?_⟩
        rw [hn]
        rfl
      · refine ⟨⟨"payment_status", .phoneData ph⟩, ?_⟩
        rw [hn]
        rfl
      · refine ⟨⟨"payment_help", .phoneData ph⟩, ?_⟩
        rw [hn]
        rfl

/-- Payment intents are in the enumeration. -/
theorem pay_sub_tags : ∀ s ∈ paymentIntents, s ∈ intentTags := by decide

/-- Payment intents are not owner intents. -/
theorem pay_owner_disjoint : ∀ s ∈ paymentIntents, s ∉ ownerIntents := by decide

/-- Owner intents are in the enumeration. -/
theorem owner_sub_tags : ∀ s ∈ ownerIntents, s ∈ intentTags := by decide

/-- Master shape of a resolution: `parseMessage` always returns exactly
one result, its intent is in the fixed enumeration, owner intents only
arise for the owner phone, and an order payload only arises from
`parseOrderMessage`. -/
theorem parseMessage_total (env : Env) (m ph : String) :
    ∃ p, parseMessage env m ph = some p ∧ p.intent ∈ intentTags ∧
      (p.intent ∈ ownerIntents → isOwnerPhone env ph = true) ∧
      (∀ od, p.data = Data.orderData od →
        parseOrderMessage env (normalizeMsg m) = some od) := by
  unfold parseMessage
  dsimp only
  by_cases hpay : isPaymentCommand (normalizeMsg m) = true
  · rw [if_pos hpay]
    obtain ⟨p, hp⟩ := parsePaymentCommand_total (normalizeMsg m) ph hpay
    obtain ⟨hint, hdata⟩ := parsePaymentCommand_shape _ _ _ hp
    exact ⟨p, hp, pay_sub_tags _ hint,
      fun hmem => absurd hmem (pay_owner_disjoint _ hint),
      fun od hod => absurd hod (hdata od)⟩
  · rw [if_neg hpay]
    by_cases h2 : (!isOwnerPhone env ph && isNewCustomer env) = true
    · rw [if_pos h2]
      cases hname : parseNameResponse m.toList with
      | some nm =>
        refine ⟨⟨"save_customer_name", .nameData nm ph⟩, rfl, ?_, ?_, ?_⟩
        · simp [intentTags, paymentIntents, ownerIntents]
        · intro hmem
          simp [ownerIntents] at hmem
        · intro od hod
          simp at hod
      | none =>
        refine ⟨⟨"request_customer_name", .phoneData ph⟩, rfl, ?_, ?_, ?_⟩
        · simp [intentTags, paymentIntents, ownerIntents]
        · intro hmem
          simp [ownerIntents] at hmem
        · intro od hod
          simp at hod
    · rw [if_neg h2]
      by_cases h3 : (!isOwnerPhone env ph && needsLocation env) = true
      · rw [if_pos h3]
        cases hloc : parseLocationResponse m.toList with
        | some loc =>
          refine ⟨⟨"save_customer_location", .locationData loc ph⟩, rfl, ?_, ?_, ?_⟩
          · simp [intentTags, paymentIntents, ownerIntents]
          · intro hmem
            simp [ownerIntents] at hmem
          · intro od hod
            simp at hod
        | none =>
          refine ⟨⟨"request_customer_location", .phoneData ph⟩, rfl, ?_, ?_, ?_⟩
          · simp [intentTags, paymentIntents, ownerIntents]
          · intro hmem
            simp [ownerIntents] at hmem
          · intro od hod
            simp at hod
      · rw [if_neg h3]
        by_cases h4 : (!isOwnerPhone env ph && needsCurrentLocation env) = true
        · rw [if_pos h4]
          cases hloc : parseLocationResponse m.toList with
          | some loc =>
            refine ⟨⟨"save_current_location", .currentLocationData loc ph⟩,
              rfl, ?_, ?_, ?_⟩
            · simp [intentTags, paymentIntents, ownerIntents]
            · intro hmem
              simp [ownerIntents] at hmem
            · intro od hod
              simp at hod
          | none =>
            refine ⟨⟨"request_current_location", .phoneData ph⟩, rfl, ?_, ?_, ?_⟩
            · simp [intentTags, paymentIntents, ownerIntents]
            · intro hmem
              simp [ownerIntents] at hmem
            · intro od hod
              simp at hod
        · rw [if_neg h4]
          cases horder : parseOrderMessage env (normalizeMsg m) with
          | some od =>
            refine ⟨⟨"place_order", .orderData od⟩, rfl, ?_, ?_, ?_⟩
            · simp [intentTags, paymentIntents, ownerIntents]
            · intro hmem
              simp [ownerIntents] at hmem
            · intro od2 hod
              have h5 : od = od2 := by
                simpa using hod
              rw [← h5]
          | none =>
            by_cases hhelp : isHelpRequest (normalizeMsg m) = true
            · rw [if_pos hhelp]
              refine ⟨⟨"help", .emptyData⟩, rfl, ?_, ?_, ?_⟩
              · simp [intentTags, paymentIntents, ownerIntents]
              · intro hmem
                simp [ownerIntents] at hmem
              · intro od hod
                simp at hod
            · rw [if_neg hhelp]
              by_cases hstat : isStatusRequest (normalizeMsg m) = true
              · rw [if_pos hstat]
                refine ⟨⟨"order_status", .phoneData ph⟩, rfl, ?_, ?_, ?_⟩
                · simp [intentTags, paymentIntents, ownerIntents]
                · intro hmem
                  simp [ownerIntents] at hmem
                · intro od hod
                  simp at hod
              · rw [if_neg hstat]
                cases hoc : (if isOwnerPhone env ph then
                    parseOwnerCommand (normalizeMsg m) else none) with
                | some oc =>
                  have hocp : parseOwnerCommand (normalizeMsg m) = some oc ∧
                      isOwnerPhone env ph = true := by
                    cases howner : isOwnerPhone env ph with
                    | false =>
                      rw [howner] at hoc
                      simp at hoc
                    | true =>
                      rw [howner] at hoc
                      simp at hoc
                      exact ⟨hoc, rfl⟩
                  obtain ⟨hoc2, howner⟩ := hocp
                  obtain ⟨hint, hdata⟩ := parseOwnerCommand_shape _ _ hoc2
                  exact ⟨oc, rfl, owner_sub_tags _ hint, fun _ => howner,
                    fun od hod => absurd hod (hdata od)⟩
                | none =>
                  by_cases hgm : (isGreeting (normalizeMsg m) ||
                      isMenuRequest (normalizeMsg m)) = true
                  · rw [if_pos hgm]
                    refine ⟨⟨"show_menu", .emptyData⟩, rfl, ?_, ?_, ?_⟩
                    · simp [intentTags, paymentIntents, ownerIntents]
                    · intro hmem
                      simp [ownerIntents] at hmem
                    · intro od hod
                      simp at hod
                  · rw [if_neg hgm]
                    cases hsearch : parseSearchMessage (normalizeMsg m) with
                    | some t =>
                      refine ⟨⟨"search_menu", .searchData t⟩, rfl, ?_, ?_, ?_⟩
                      · simp [intentTags, paymentIntents, ownerIntents]
                      · intro hmem
                        simp [ownerIntents] at hmem
                      · intro od hod
                        simp at hod
                    | none =>
                      refine ⟨⟨"unknown", .unknownData m⟩, rfl, ?_, ?_, ?_⟩
                      · simp [intentTags, paymentIntents, ownerIntents]
                      · intro hmem
                        simp [ownerIntents] at hmem
                      · intro od hod
                        simp at hod

/-- C6: a sender whose phone is not the configured owner phone can never
receive an owner-tagged intent, whatever the message text. -/
theorem non_owner_never_owner_intent (env : Env) (m ph : String) (p : Parsed)
    (howner : isOwnerPhone env ph = false)
    (h : parseMessage env m ph = some p) :
    p.intent ∉ ownerIntents := by
  obtain ⟨q, hq, _, hguard, _⟩ := parseMessage_total env m ph
  rw [h] at hq
  cases hq
  intro hmem
  rw [hguard hmem] at howner
  simp at howner

/-- C6 witness: the owner grammar `"orders"` from a non-owner phone
resolves to `unknown`, which is not owner-tagged. -/
theorem non_owner_never_owner_intent_witness :
    (Parsed.mk "unknown" (.unknownData "orders")).intent ∉ ownerIntents :=
  non_owner_never_owner_intent envC2 "orders" "+111"
    ⟨"unknown", .unknownData "orders"⟩ (by decide) (by decide)

/-- C9: the resolver totally returns exactly one `ParsedIntent` drawn
from the fixed enumeration (it never throws), and when no rule matches
it returns `unknown` carrying the original message. -/
theorem resolver_totality (env : Env) (m ph : String) :
    (∃ p, parseMessage env m ph = some p ∧ p.intent ∈ intentTags) ∧
    (isPaymentCommand (normalizeMsg m) = false →
     isNewCustomer env = false →
     needsLocation env = false →
     needsCurrentLocation env = false →
     parseOrderMessage env (normalizeMsg m) = none →
     isHelpRequest (normalizeMsg m) = false →
     isStatusRequest (normalizeMsg m) = false →
     parseOwnerCommand (normalizeMsg m) = none →
     isGreeting (normalizeMsg m) = false →
     isMenuRequest (normalizeMsg m) = false →
     parseSearchMessage (normalizeMsg m) = none →
     parseMessage env m ph = some ⟨"unknown", .unknownData m⟩) := by
  constructor
  · obtain ⟨p, hp, htags, _, _⟩ := parseMessage_total env m ph
    exact ⟨p, hp, htags⟩
  · intro hpay hnew hloc hcur horder hhelp hstat howncmd hgreet hmenu hsearch
    unfold parseMessage
    dsimp only
    simp only [hpay, hnew, hloc, hcur, horder, hhelp, hstat, howncmd, hgreet,
      hmenu, Bool.and_false, Bool.false_eq_true, if_false, Bool.or_self,
      ite_self, hsearch]

/-- C9 witness: a message matched by no rule resolves to `unknown` with
the original text. -/
theorem resolver_totality_witness :
    parseMessage envC2 "zzq qqz" "+111" =
      some ⟨"unknown", .unknownData "zzq qqz"⟩ :=
  (resolver_totality envC2 "zzq qqz" "+111").2 (by decide) (by decide)
    (by decide) (by decide) (by decide) (by decide) (by decide) (by decide)
    (by decide) (by decide) (by decide)

/-- The accumulation loop of `parseMultipleOrderMessage`, characterized:
the collected lines are the segments that resolve (failures silently
dropped), and the running total is the sum of their line totals. -/
theorem collect_aux (env : Env) :
    ∀ (segs : List (List Char)) (acc : List OrderLine × Nat),
      segs.foldl
        (fun acc segment =>
          match parseSingleItemSegment env (jsTrim segment) with
          | some itemData => (acc.1 ++ [itemData], acc.2 + itemData.total)
          | none => acc) acc =
      (acc.1 ++ segs.filterMap (fun s => parseSingleItemSegment env (jsTrim s)),
       acc.2 + ((segs.filterMap (fun s => parseSingleItemSegment env (jsTrim s))).map
         OrderLine.total).sum) := by
  intro segs
  induction segs with
  | nil =>
    intro acc
    simp
  | cons s t ih =>
    intro acc
    rw [List.foldl_cons, List.filterMap_cons]
    cases h : parseSingleItemSegment env (jsTrim s) with
    | none =>
      rw [ih]
    | some it =>
      rw [ih]
      simp only [List.append_assoc, List.singleton_append, List.map_cons,
        List.sum_cons]
      rw [Nat.add_assoc]

/-- Characterization of a multi-line result of
`parseMultipleOrderMessage`: the flag is always true, the total is the
sum of the line totals, and the lines are exactly the resolving
segments of the split capture. -/
theorem parseMultipleOrderMessage_spec (env : Env) (msg : List Char)
    (items : List OrderLine) (total : Nat) (mult : Bool)
    (h : parseMultipleOrderMessage env msg =
      some (.multiple items total mult)) :
    mult = true ∧
    total = (items.map OrderLine.total).sum ∧
    ∃ cap, findMultiCapture msg = some cap ∧
      items = (jsSplitSep (jsTrim cap)).filterMap
        (fun seg => parseSingleItemSegment env (jsTrim seg)) := by
  unfold parseMultipleOrderMessage at h
  cases hcap : findMultiCapture msg with
  | none =>
    rw [hcap] at h
    exact Option.noConfusion h
  | some cap =>
    rw [hcap] at h
    dsimp only at h
    unfold collectItems at h
    rw [collect_aux env _ ([], 0)] at h
    simp only [List.nil_append, Nat.zero_add] at h
    by_cases hlen : ((jsSplitSep (jsTrim cap)).filterMap
        (fun s => parseSingleItemSegment env (jsTrim s))).length > 1
    · rw [if_pos hlen] at h
      injection h with h1
      injection h1 with hi ht hm
      exact ⟨hm.symm, by rw [← hi, ← ht], cap, rfl, hi.symm⟩
    · rw [if_neg hlen] at h
      split at h
      · exact absurd h (by simp)
      · exact Option.noConfusion h

/-- C2: the message `"order 2 chicken biryani, 1 naan"` against the
two-item catalog resolves to `place_order` with `isMultipleItems=true`,
two line items (2x299=598 and 1x49=49) and `totalAmount=647`; and in
general a multi-line result's lines are exactly the segments that
resolve (failed segments silently dropped) with `totalAmount` the sum of
the line totals. -/
theorem multi_item_order_example_and_sum :
    parseMessage envC2 "order 2 chicken biryani, 1 naan" "+111" =
      some ⟨"place_order", .orderData (.multiple
        [⟨2, biryaniItem, 598⟩, ⟨1, naanItem, 49⟩] 647 true)⟩ ∧
    ∀ (env : Env) (msg : List Char) items total mult,
      parseMultipleOrderMessage env msg = some (.multiple items total mult) →
      mult = true ∧ total = (items.map OrderLine.total).sum ∧
      ∃ cap, findMultiCapture msg = some cap ∧
        items = (jsSplitSep (jsTrim cap)).filterMap
          (fun seg => parseSingleItemSegment env (jsTrim seg)) :=
  ⟨by decide, fun env msg items total mult h =>
    parseMultipleOrderMessage_spec env msg items total mult h⟩

/-- C2 witness at the concrete catalog and message. -/
theorem multi_item_order_example_and_sum_witness :
    true = true ∧
    647 = ([OrderLine.mk 2 biryaniItem 598, OrderLine.mk 1 naanItem 49].map
      OrderLine.total).sum ∧
    ∃ cap, findMultiCapture "order 2 chicken biryani, 1 naan".toList = some cap ∧
      [OrderLine.mk 2 biryaniItem 598, OrderLine.mk 1 naanItem 49] =
        (jsSplitSep (jsTrim cap)).filterMap
          (fun seg => parseSingleItemSegment envC2 (jsTrim seg)) :=
  multi_item_order_example_and_sum.2 envC2
    "order 2 chicken biryani, 1 naan".toList
    [OrderLine.mk 2 biryaniItem 598, OrderLine.mk 1 naanItem 49] 647 true
    (by decide)

/-- `findItemById` only returns available items. -/
theorem findItemById_available (w : Except Unit (List MenuItem)) (i : Nat)
    (mi : MenuItem) (h : findItemById w i = some mi) :
    mi.available = true := by
  unfold findItemById at h
  cases w with
  | error e => exact Option.noConfusion h
  | ok menu =>
    have hp := List.find?_some h
    simp only [Bool.and_eq_true] at hp
    exact hp.2

/-- `searchItems` only returns available items. -/
theorem searchItems_mem_available (w : Except Unit (List MenuItem))
    (t : List Char) (mi : MenuItem) (h : mi ∈ searchItems w t) :
    mi.available = true := by
  unfold searchItems at h
  cases w with
  | error e => cases h
  | ok menu =>
    dsimp only at h
    have hp := List.of_mem_filter h
    simp only [Bool.and_eq_true] at hp
    exact hp.1

/-- The head of a search result is available. -/
theorem searchItems_head_available (w : Except Unit (List MenuItem))
    (t : List Char) (mi : MenuItem) (h : (searchItems w t).head? = some mi) :
    mi.available = true := by
  cases hl : searchItems w t with
  | nil =>
    rw [hl] at h
    exact Option.noConfusion h
  | cons a rest =>
    rw [hl] at h
    cases h
    exact searchItems_mem_available w t mi (by rw [hl]; exact List.mem_cons_self _ _)

/-- A successful `segLine` returns its looked-up item as the line's
menu item. -/
theorem segLine_some (o : Option MenuItem) (q : Nat) (line : OrderLine)
    (h : segLine o q = some line) : o = some line.menuItem := by
  unfold segLine at h
  cases o with
  | none => exact Option.noConfusion h
  | some mi =>
    split_ifs at h
    · cases h
      rfl

/-- Every resolved item segment carries an available item. -/
theorem parseSingleItemSegment_available (env : Env) (seg : List Char)
    (line : OrderLine) (h : parseSingleItemSegment env seg = some line) :
    line.menuItem.available = true := by
  unfold parseSingleItemSegment at h
  cases h1 : (match scanO p1At seg with
      | some (q, i) => segLine (findItemById env.menuW i) q
      | none => none) with
  | some l1 =>
    rw [h1] at h
    simp only [Option.orElse] at h
    cases h
    cases h2 : scanO p1At seg with
    | none =>
      rw [h2] at h1
      exact Option.noConfusion h1
    | some v =>
      obtain ⟨q, i⟩ := v
      rw [h2] at h1
      exact findItemById_available _ i _ (segLine_some _ q _ h1)
  | none =>
    rw [h1] at h
    simp only [Option.orElse] at h
    cases h3 : (match scanO p2At seg with
        | some (q, i) => segLine (findItemById env.menuW i) q
        | none => none) with
    | some l2 =>
      rw [h3] at h
      simp only at h
      cases h
      cases h4 : scanO p2At seg with
      | none =>
        rw [h4] at h3
        exact Option.noConfusion h3
      | some v =>
        obtain ⟨q, i⟩ := v
        rw [h4] at h3
        exact findItemById_available _ i _ (segLine_some _ q _ h3)
    | none =>
      rw [h3] at h
      simp only at h
      cases h5 : scanO p3At seg with
      | none =>
        rw [h5] at h
        exact Option.noConfusion h
      | some v =>
        obtain ⟨q, cap⟩ := v
        rw [h5] at h
        dsimp only at h
        exact searchItems_head_available _ _ _ (segLine_some _ q _ h)

/-- Every line of a multi-order result carries an available item. -/
theorem parseMultipleOrderMessage_available (env : Env) (msg : List Char)
    (od : OrderData) (h : parseMultipleOrderMessage env msg = some od) :
    ∀ line ∈ orderLines od, line.menuItem.available = true := by
  unfold parseMultipleOrderMessage at h
  cases hcap : findMultiCapture msg with
  | none =>
    rw [hcap] at h
    exact Option.noConfusion h
  | some cap =>
    rw [hcap] at h
    dsimp only at h
    unfold collectItems at h
    rw [collect_aux env _ ([], 0)] at h
    simp only [List.nil_append, Nat.zero_add] at h
    have hmem : ∀ line ∈ (jsSplitSep (jsTrim cap)).filterMap
        (fun s => parseSingleItemSegment env (jsTrim s)),
        line.menuItem.available = true := by
      intro line hline
      obtain ⟨seg, _, hseg⟩ := List.mem_filterMap.mp hline
      exact parseSingleItemSegment_available env (jsTrim seg) line hseg
    by_cases hlen : ((jsSplitSep (jsTrim cap)).filterMap
        (fun s => parseSingleItemSegment env (jsTrim s))).length > 1
    · rw [if_pos hlen] at h
      cases h
      exact hmem
    · rw [if_neg hlen] at h
      cases hfm : (jsSplitSep (jsTrim cap)).filterMap
          (fun s => parseSingleItemSegment env (jsTrim s)) with
      | nil =>
        rw [hfm] at h
        exact Option.noConfusion h
      | cons a t =>
        cases t with
        | nil =>
          rw [hfm] at h
          cases h
          intro line hline
          have hl : line = ⟨a.quantity, a.menuItem, a.total⟩ := by
            simpa [orderLines] using hline
          rw [hl]
          exact hmem a (by rw [hfm]; exact List.mem_cons_self _ _)
        | cons b t2 =>
          rw [hfm] at h
          exact Option.noConfusion h

/-- Every line of a single-order result carries an available item. -/
theorem parseSingleOrderMessage_available (env : Env) (msg : List Char)
    (od : OrderData) (h : parseSingleOrderMessage env msg = some od) :
    ∀ line ∈ orderLines od, line.menuItem.available = true := by
  unfold parseSingleOrderMessage at h
  cases hx : ((match scanO s1At msg with
      | some (q, i) => segLine (findItemById env.menuW i) q
      | none => none).orElse (fun _ =>
    (match scanO s2At msg with
      | some (q, i) => segLine (findItemById env.menuW i) q
      | none => none).orElse (fun _ =>
    match scanO s3At msg with
    | some (q, cap) =>
      segLine (searchItems env.menuW (cleanItemName (jsTrim cap))).head? q
    | none => none))) with
  | none =>
    rw [hx] at h
    exact Option.noConfusion h
  | some l =>
    rw [hx] at h
    cases h
    have hav : l.menuItem.available = true := by
      cases h1 : (match scanO s1At msg with
          | some (q, i) => segLine (findItemById env.menuW i) q
          | none => none) with
      | some l1 =>
        rw [h1] at hx
        simp only [Option.orElse] at hx
        cases hx
        cases h2 : scanO s1At msg with
        | none =>
          rw [h2] at h1
          exact Option.noConfusion h1
        | some v =>
          obtain ⟨q, i⟩ := v
          rw [h2] at h1
          exact findItemById_available _ i _ (segLine_some _ q _ h1)
      | none =>
        rw [h1] at hx
        simp only [Option.orElse] at hx
        cases h3 : (match scanO s2At msg with
            | some (q, i) => segLine (findItemById env.menuW i) q
            | none => none) with
        | some l2 =>
          rw [h3] at hx
          simp only at hx
          cases hx
          cases h4 : scanO s2At msg with
          | none =>
            rw [h4] at h3
            exact Option.noConfusion h3
          | some v =>
            obtain ⟨q, i⟩ := v
            rw [h4] at h3
            exact findItemById_available _ i _ (segLine_some _ q _ h3)
        | none =>
          rw [h3] at hx
          simp only at hx
          cases h5 : scanO s3At msg with
          | none =>
            rw [h5] at hx
            exact Option.noConfusion hx
          | some v =>
            obtain ⟨q, cap⟩ := v
            rw [h5] at hx
            dsimp only at hx
            exact searchItems_head_available _ _ _ (segLine_some _ q _ hx)
    intro line hline
    have hl : line = ⟨l.quantity, l.menuItem, l.total⟩ := by
      simpa [orderLines] using hline
    rw [hl]
    exact hav

/-- C10: every `place_order` payload the resolver can produce consists
only of lines whose menu item is available: both the id lookup and the
name search filter unavailable items out. -/
theorem place_order_items_available (env : Env) (m ph : String) (p : Parsed)
    (od : OrderData) (h : parseMessage env m ph = some p)
    (hd : p.data = Data.orderData od) :
    ∀ line ∈ orderLines od, line.menuItem.available = true := by
  obtain ⟨q, hq, _, _, hord⟩ := parseMessage_total env m ph
  rw [h] at hq
  cases hq
  have horder := hord od hd
  unfold parseOrderMessage at horder
  cases hm : parseMultipleOrderMessage env (normalizeMsg m) with
  | some d =>
    rw [hm] at horder
    cases horder
    exact parseMultipleOrderMessage_available _ _ _ hm
  | none =>
    rw [hm] at horder
    exact parseSingleOrderMessage_available _ _ _ horder

/-- C10 witness at the concrete two-line order: the first resolved line
of the example order carries an available item. -/
theorem place_order_items_available_witness :
    (OrderLine.mk 2 biryaniItem 598).menuItem.available = true :=
  place_order_items_available envC2 "order 2 chicken biryani, 1 naan" "+111"
    ⟨"place_order", .orderData (.multiple
      [OrderLine.mk 2 biryaniItem 598, OrderLine.mk 1 naanItem 49] 647 true)⟩
    (.multiple [OrderLine.mk 2 biryaniItem 598, OrderLine.mk 1 naanItem 49]
      647 true)
    (by decide) rfl (OrderLine.mk 2 biryaniItem 598) (by decide)

/-- Payment intents are never the search intent. -/
theorem pay_ne_search : ∀ s ∈ paymentIntents, s ≠ "search_menu" := by decide

/-- Any message whose normalized form matches the `show me` search
grammar also satisfies the help-keyword test: the literal `show`
contains `how`, so the help rule always claims such messages first. -/
theorem showme_implies_help (m : String)
    (h : (scanO (kwCapAt "show me".toList) (normalizeMsg m)).isSome = true) :
    isHelpRequest (normalizeMsg m) = true := by
  obtain ⟨r, hr⟩ := Option.isSome_iff_exists.mp h
  obtain ⟨s, hs, hfs⟩ := scanO_eq_some _ _ _ hr
  have hci : ciStarts "show me".toList s = true := by
    unfold kwCapAt at hfs
    split_ifs at hfs with hc
    · exact hc
  have hfix := toLower_fix_of_mem (lowerL_normalizeMsg m)
  unfold ciStarts at hci
  rw [decide_eq_true_eq] at hci
  have hsub : ∀ c ∈ s.take ("show me".toList.length), c.toLower = c := by
    intro c hc
    exact hfix c (hs.subset (List.take_subset _ _ hc))
  have htake : s.take ("show me".toList.length) = "show me".toList := by
    have hmap : lowerL (s.take ("show me".toList.length)) =
        s.take ("show me".toList.length) := by
      unfold lowerL
      calc List.map Char.toLower (s.take ("show me".toList.length))
          = List.map id (s.take ("show me".toList.length)) :=
            List.map_congr_left hsub
        _ = s.take ("show me".toList.length) := List.map_id _
    rw [← hmap]
    exact hci
  have hpre : List.IsPrefix "show me".toList s :=
    htake ▸ List.take_prefix _ s
  have hinf : List.IsInfix "how".toList (normalizeMsg m) := by
    have h1 : List.IsInfix "how".toList "show me".toList :=
      ⟨['s'], " me".toList, by decide⟩
    exact (h1.trans hpre.isInfix).trans hs.isInfix
  have hcon := containsSub_of_infix hinf
  unfold isHelpRequest
  simp only [List.any_cons, List.any_nil, Bool.or_false, Bool.or_eq_true]
  exact Or.inr (Or.inl hcon)

/-- C8 counterexample: `"show me naan"` from a fully-onboarded non-owner
matches the `show me <term>` search grammar, yet resolves to `help`, not
`search_menu` — the message contains the help keyword `how` inside
`show`. -/
theorem show_me_claimed_by_help :
    parseMessage envC2 "show me naan" "+111" = some ⟨"help", .emptyData⟩ ∧
    (scanO (kwCapAt "show me".toList)
      (normalizeMsg "show me naan")).isSome = true ∧
    parseSearchMessage (normalizeMsg "show me naan") = some "naan".toList ∧
    isHelpRequest (normalizeMsg "show me naan") = true ∧
    "help" ≠ "search_menu" := by
  refine ⟨by decide, by decide, by decide, by decide, by decide⟩

/-- C8 amended: a message reaching the search rule (every
higher-precedence rule declining) with any of the search grammars
matching resolves to `search_menu` with the trimmed term; however a
message matching the `show me <term>` grammar is always claimed by the
help rule first, so that grammar can never produce `search_menu` (the
other three can, witnessed concretely). -/
theorem search_grammar_resolution :
    (∀ (env : Env) (m ph : String) (t : List Char),
      isPaymentCommand (normalizeMsg m) = false →
      isNewCustomer env = false →
      needsLocation env = false →
      needsCurrentLocation env = false →
      parseOrderMessage env (normalizeMsg m) = none →
      isHelpRequest (normalizeMsg m) = false →
      isStatusRequest (normalizeMsg m) = false →
      parseOwnerCommand (normalizeMsg m) = none →
      isGreeting (normalizeMsg m) = false →
      isMenuRequest (normalizeMsg m) = false →
      parseSearchMessage (normalizeMsg m) = some t →
      parseMessage env m ph = some ⟨"search_menu", .searchData t⟩) ∧
    (∀ (env : Env) (m ph : String) (p : Parsed),
      (scanO (kwCapAt "show me".toList) (normalizeMsg m)).isSome = true →
      parseMessage env m ph = some p →
      p.intent ≠ "search_menu") := by
  constructor
  · intro env m ph t hpay hnew hloc hcur horder hhelp hstat howncmd hgreet
      hmenu hsearch
    unfold parseMessage
    dsimp only
    simp only [hpay, hnew, hloc, hcur, horder, hhelp, hstat, howncmd, hgreet,
      hmenu, Bool.and_false, Bool.false_eq_true, if_false, Bool.or_self,
      ite_self, hsearch]
  · intro env m ph p hshow hmsg
    have hhelp := showme_implies_help m hshow
    unfold parseMessage at hmsg
    dsimp only at hmsg
    by_cases hpay : isPaymentCommand (normalizeMsg m) = true
    · rw [if_pos hpay] at hmsg
      obtain ⟨hint, _⟩ := parsePaymentCommand_shape _ _ _ hmsg
      exact pay_ne_search _ hint
    · rw [if_neg hpay] at hmsg
      by_cases h2 : (!isOwnerPhone env ph && isNewCustomer env) = true
      · rw [if_pos h2] at hmsg
        cases hname : parseNameResponse m.toList with
        | some nm =>
          rw [hname] at hmsg
          cases hmsg
          simp
        | none =>
          rw [hname] at hmsg
          cases hmsg
          simp
      · rw [if_neg h2] at hmsg
        by_cases h3 : (!isOwnerPhone env ph && needsLocation env) = true
        · rw [if_pos h3] at hmsg
          cases hloc2 : parseLocationResponse m.toList with
          | some loc =>
            rw [hloc2] at hmsg
            cases hmsg
            simp
          | none =>
            rw [hloc2] at hmsg
            cases hmsg
            simp
        · rw [if_neg h3] at hmsg
          by_cases h4 : (!isOwnerPhone env ph && needsCurrentLocation env) = true
          · rw [if_pos h4] at hmsg
            cases hloc2 : parseLocationResponse m.toList with
            | some loc =>
              rw [hloc2] at hmsg
              cases hmsg
              simp
            | none =>
              rw [hloc2] at hmsg
              cases hmsg
              simp
          · rw [if_neg h4] at hmsg
            cases horder : parseOrderMessage env (normalizeMsg m) with
            | some od =>
              rw [horder] at hmsg
              cases hmsg
              simp
            | none =>
              rw [horder] at hmsg
              dsimp only at hmsg
              rw [if_pos hhelp] at hmsg
              cases hmsg
              simp

/-- C8 witness: the three reachable search grammars each produce
`search_menu` concretely. -/
theorem search_grammar_resolution_witness :
    parseMessage envC2 "search naan" "+111" =
      some ⟨"search_menu", .searchData "naan".toList⟩ ∧
    parseMessage envC2 "find naan" "+111" =
      some ⟨"search_menu", .searchData "naan".toList⟩ ∧
    parseMessage envC2 "do you have naan" "+111" =
      some ⟨"search_menu", .searchData "naan".toList⟩ :=
  ⟨search_grammar_resolution.1 envC2 "search naan" "+111" "naan".toList
      (by decide) (by decide) (by decide) (by decide) (by decide) (by decide)
      (by decide) (by decide) (by decide) (by decide) (by decide),
   search_grammar_resolution.1 envC2 "find naan" "+111" "naan".toList
      (by decide) (by decide) (by decide) (by decide) (by decide) (by decide)
      (by decide) (by decide) (by decide) (by decide) (by decide),
   search_grammar_resolution.1 envC2 "do you have naan" "+111" "naan".toList
      (by decide) (by decide) (by decide) (by decide) (by decide) (by decide)
      (by decide) (by decide) (by decide) (by decide) (by decide)⟩

/-- C1 witness at `pay cod`. -/
theorem payment_commands_resolve_first_witness :
    ∃ p, parsePaymentCommand (normalizeMsg "pay cod") "+111" = some p ∧
      parseMessage envNewC "pay cod" "+111" = some p ∧
      p.intent ∈ paymentIntents ∧
      (∀ m, matchPayMethod (normalizeMsg "pay cod") = some m →
        p = ⟨"select_payment_method", .payMethod m "+111"
          [("cod".toList, "cod".toList), ("upi".toList, "upi".toList)]⟩) ∧
      (∀ cap, matchPaidCmd (normalizeMsg "pay cod") = some cap →
        p = ⟨"confirm_payment", .txn (jsTrim cap) "+111"⟩) ∧
      (normalizeMsg "pay cod" = "payment status".toList →
        p.intent = "payment_status") ∧
      (normalizeMsg "pay cod" = "payment options".toList →
        p.intent = "payment_options") ∧
      (normalizeMsg "pay cod" = "payment help".toList →
        p.intent = "payment_help") :=
  payment_commands_resolve_first envNewC "pay cod" "+111" (by decide)
